import Mathlib

/-!
Verification of the tender-extraction normalization pipeline and heuristic
scorers of `src/ReikanTenderAI.tsx` (a React/TypeScript single-file app).

The relevant functions operate on loosely-typed JavaScript values (the
extraction bundle is `any`-shaped), so the embedding models a JavaScript
value tree (`JsVal`) with JS truthiness, `||` / `??` operators, property
access, `Number(...)` coercion and string coercion.  String methods such as
`.trim()` throw a `TypeError` when invoked on a non-string; fallible code
paths therefore live in `Except Unit`.

Modeling notes (documented divergences, none exercised by the claims):
* JS numbers are IEEE doubles; they are modeled as `Option ℚ` (`none` = NaN)
  with exact arithmetic.  The constants involved (0.4, 0.2, 0.9) are modeled
  as the exact rationals 2/5, 1/5, 9/10.
* `toLowerCase` is modeled as ASCII lowering (`Char.toLower`); the inputs the
  claims exercise contain no upper-case non-ASCII letters.
* whitespace (`\s`, `.trim()`) is modeled as space/tab/CR/LF.
* `Number(...)` string parsing covers optional sign and decimal literals;
  hex/exponent forms and array-to-primitive coercion are mapped to NaN.
* `Array.prototype.sort` is modeled as a stable insertion sort; for the one
  comparator that can be inconsistent (NaN weights in `pickTopCriteria`) the
  ECMAScript spec itself leaves the order implementation-defined.
-/

namespace Reikan

/-! ### JS string helpers (`normalizeText`, `isPlaceholder` vocabulary) -/

/-- ASCII variant of JS `toLowerCase` (see modeling notes). -/
def jsLowerChar (c : Char) : Char := c.toLower

/-- Whitespace test used by `trim` and `\s+` (see modeling notes). -/
def isJsWs (c : Char) : Bool := c = ' ' || c = '\t' || c = '\n' || c = '\r'

/-- Character-list version of JS `String.prototype.trim`. -/
def trimChars (l : List Char) : List Char :=
  ((l.dropWhile isJsWs).reverse.dropWhile isJsWs).reverse

/-- JS `s.trim()` for an actual string. -/
def jsTrimStr (s : String) : String := String.mk (trimChars s.data)

/-- JS `s.toLowerCase()` (ASCII, see modeling notes). -/
def jsLowerStr (s : String) : String := String.mk (s.data.map jsLowerChar)

/-- Replace every maximal whitespace run by a single space: the effect of
`replace(/\s+/g, " ")`.  The flag records whether the previous character was
whitespace. -/
def collapseWsAux : Bool → List Char → List Char
  | _, [] => []
  | prevWs, c :: rest =>
    if isJsWs c then
      if prevWs then collapseWsAux true rest else ' ' :: collapseWsAux true rest
    else c :: collapseWsAux false rest

/-- Source `normalizeText`: `text.toLowerCase().trim().replace(/\s+/g, " ")`. -/
def normalizeText (s : String) : String :=
  String.mk (collapseWsAux false (trimChars (s.data.map jsLowerChar)))

/-- Source constant `PLACEHOLDERS` (a JS `Set` of strings). -/
def PLACEHOLDERS : List String :=
  ["unbekannt", "unknown", "tbd", "n/a", "nicht vorhanden", "keine angabe",
   "unspecified", "...", "null", "none", "k.a."]

/-- Source `isPlaceholder`, specialized to a string argument (`!text` is JS
falsiness, i.e. the empty string): empty, or normalized length < 3, or a
member of the placeholder vocabulary. -/
def isPlaceholderStr (s : String) : Bool :=
  if s = "" then true
  else
    let n := normalizeText s
    n.length < 3 || PLACEHOLDERS.contains n

/-- Helper for `String.prototype.includes`: does `pat` occur at the start? -/
def listStartsWith : List Char → List Char → Bool
  | [], _ => true
  | _ :: _, [] => false
  | a :: as, b :: bs => a = b && listStartsWith as bs

/-- Helper for `String.prototype.includes`: does `pat` occur anywhere? -/
def listHasSub (pat : List Char) : List Char → Bool
  | [] => listStartsWith pat []
  | c :: rest => listStartsWith pat (c :: rest) || listHasSub pat rest

/-- JS `hay.includes(pat)`. -/
def strContains (hay pat : String) : Bool := listHasSub pat.data hay.data

/-! ### JS values -/

/- A JavaScript value tree.  `num none` is NaN.  Mutual with `JsArr`/`JsObj`
so that all recursion over values is structural (kernel-reducible). -/
mutual
inductive JsVal where
  | undef
  | jnull
  | num (val : Option ℚ)
  | str (s : String)
  | arr (elems : JsArr)
  | obj (fields : JsObj)
inductive JsArr where
  | nil
  | cons (head : JsVal) (tail : JsArr)
inductive JsObj where
  | nil
  | cons (key : String) (val : JsVal) (tail : JsObj)
end

/-- Build a `JsArr` from a list (convenience constructor for literals). -/
def JsArr.ofList : List JsVal → JsArr
  | [] => .nil
  | v :: r => .cons v (JsArr.ofList r)

/-- Convert a `JsArr` back to a list. -/
def JsArr.toList : JsArr → List JsVal
  | .nil => []
  | .cons v r => v :: JsArr.toList r

/-- Build a `JsObj` from a key/value list (convenience constructor). -/
def JsObj.ofList : List (String × JsVal) → JsObj
  | [] => .nil
  | (k, v) :: r => .cons k v (JsObj.ofList r)

/-- Array literal. -/
def jArr (l : List JsVal) : JsVal := .arr (JsArr.ofList l)

/-- Object literal. -/
def jObj (l : List (String × JsVal)) : JsVal := .obj (JsObj.ofList l)

/-- JS truthiness. -/
def jsTruthy : JsVal → Bool
  | .undef => false
  | .jnull => false
  | .num none => false
  | .num (some q) => decide (q ≠ 0)
  | .str s => decide (s ≠ "")
  | .arr _ => true
  | .obj _ => true

/-- JS `a || b`. -/
def jsOr (a b : JsVal) : JsVal := if jsTruthy a then a else b

/-- JS `a ?? b`. -/
def jsNullish (a b : JsVal) : JsVal :=
  match a with
  | .undef => b
  | .jnull => b
  | v => v

/-- First-match field lookup in an object. -/
def JsObj.get : JsObj → String → JsVal
  | .nil, _ => (.undef)
  | .cons k v rest, key => if k = key then v else JsObj.get rest key

/-- JS property access `v?.k` / `v.k` as used by the source: an object yields
its field (or `undefined`), every other value yields `undefined`.  (Built-in
properties of primitives, e.g. `"x".length`, are never accessed this way in
the modeled code.) -/
def jsGet (v : JsVal) (k : String) : JsVal :=
  match v with
  | .obj fs => fs.get k
  | _ => (.undef)

/-- JS `Array.isArray(x) ? x : []`. -/
def jsArrElems : JsVal → List JsVal
  | .arr l => l.toList
  | _ => []

/-- JS strict equality `v === s` against a string literal (object identity
never makes a non-string equal to a string). -/
def jsIsStr (v : JsVal) (s : String) : Bool :=
  match v with
  | .str t => decide (t = s)
  | _ => false

/-! ### `Number(...)` coercion -/

/-- Digits of a decimal literal chunk to a natural number (`none` when a
non-digit occurs; the empty chunk yields `some 0` so that `"5."` and `".5"`
parse as in JS). -/
def digitsVal : List Char → Option ℕ
  | [] => some 0
  | c :: r =>
    if c.isDigit then
      match digitsVal r with
      | some n => some (n * 10 + (c.toNat - '0'.toNat))
      | none => none
    else none

/-- Value of a digit chunk read most-significant-first. -/
def decChunk (l : List Char) : Option ℕ :=
  (digitsVal l.reverse)

/-- Parse the body (no sign) of a JS numeric string: `digits`, `digits.digits`,
`digits.` or `.digits`. -/
def parseBody (l : List Char) : Option ℚ :=
  match l.splitOn '.' with
  | [ip] =>
    if ip = [] then none
    else (decChunk ip).map (fun n => (n : ℚ))
  | [ip, fp] =>
    if ip = [] && fp = [] then none
    else
      match decChunk ip, decChunk fp with
      | some n, some f => some ((n : ℚ) + (f : ℚ) / ((10 : ℚ) ^ fp.length))
      | _, _ => none
  | _ => none

/-- JS `Number(s)` for a string: trimmed empty string is 0, else an optionally
signed decimal literal; anything else is NaN (see modeling notes). -/
def parseJsNumber (s : String) : Option ℚ :=
  let t := trimChars s.data
  if t = [] then some 0
  else
    match t with
    | '-' :: r => (parseBody r).map (fun q => -q)
    | '+' :: r => parseBody r
    | r => parseBody r

/-- JS `Number(v)` (see modeling notes for `arr`). -/
def jsToNumber : JsVal → Option ℚ
  | .undef => none
  | .jnull => some 0
  | .num v => v
  | .str s => parseJsNumber s
  | .arr _ => none
  | .obj _ => none

/-- JS number-to-string, exact on integers (non-integer formatting is never
exercised by the claims; see modeling notes). -/
def numToString (v : Option ℚ) : String :=
  match v with
  | none => "NaN"
  | some q => if q.den = 1 then toString q.num else toString q

/-- JS string coercion (`.toString()` on a truthy value / template literal). -/
def jsToStrCoerce : JsVal → String
  | .undef => "undefined"
  | .jnull => "null"
  | .num v => numToString v
  | .str s => s
  | .arr _ => ""
  | .obj _ => "[object Object]"

/-- JS `v.trim()`: succeeds only on strings, otherwise a `TypeError`. -/
def jsTrimE (v : JsVal) : Except Unit String :=
  match v with
  | .str s => .ok (jsTrimStr s)
  | _ => .error ()

/-- Source `isPlaceholder` on a raw JS value: a falsy value is a placeholder
(`!text`), a truthy string is tested, and a truthy non-string throws inside
`normalizeText` (`.toLowerCase()` on a non-string). -/
def isPlaceholderJ (v : JsVal) : Except Unit Bool :=
  if jsTruthy v then
    match v with
    | .str s => .ok (isPlaceholderStr s)
    | _ => .error ()
  else .ok true

/-- Sequential monadic map over `Except` (JS array methods evaluate their
callback left to right and an exception aborts the whole call). -/
def mapME {α β : Type} (f : α → Except Unit β) : List α → Except Unit (List β)
  | [] => .ok []
  | x :: rest => do
    let y ← f x
    let ys ← mapME f rest
    return y :: ys

/-! ### JS `Map` with insertion order, and `Set` dedup -/

/-- JS `Map.prototype.set`: updating an existing key keeps its original
insertion position, a new key is appended. -/
def alSet {α : Type} : List (String × α) → String → α → List (String × α)
  | [], k, v => [(k, v)]
  | (k', v') :: rest, k, v =>
    if k' = k then (k, v) :: rest else (k', v') :: alSet rest k v

/-- JS `Map.prototype.get` (first match). -/
def alGet? {α : Type} : List (String × α) → String → Option α
  | [], _ => none
  | (k', v') :: rest, k => if k' = k then some v' else alGet? rest k

/-- JS `Map.prototype.values` / `Array.from(map.values())`. -/
def alValues {α : Type} (m : List (String × α)) : List α := m.map (·.2)

/-- Order-preserving dedup, as `new Set(list)` iterated in insertion order. -/
def dedupFirstAux (seen : List String) : List String → List String
  | [] => []
  | x :: rest =>
    if seen.contains x then dedupFirstAux seen rest
    else x :: dedupFirstAux (x :: seen) rest

/-- Order-preserving dedup from the empty seen-set. -/
def dedupFirst (l : List String) : List String := dedupFirstAux [] l

/-! ### `mergeSourceDocuments` -/

/-- Source `mergeSourceDocuments(a?, b?)`: `[a, b].filter(Boolean).map(v =>
(v || "").trim()).filter(v => v.length > 0)`, deduplicated by a `Set` and
joined with `"; "`.  `.trim()` on a truthy non-string throws. -/
def mergeSourceDocumentsJ (a b : JsVal) : Except Unit String := do
  let kept := [a, b].filter jsTruthy
  let trimmed ← mapME (fun v => jsTrimE (jsOr v (.str ""))) kept
  let parts := dedupFirst (trimmed.filter (· ≠ ""))
  return String.intercalate "; " parts

/-- Optional-string arguments as the TS signature `(a?: string, b?: string)`
passes them. -/
def optStr : Option String → JsVal
  | none => (.undef)
  | some s => .str s

/-! ### `pickTopRisks` -/

/-- Intermediate record of `pickTopRisks` (the value stored in `deduped`). -/
structure RiskRec where
  text : String
  source_document : JsVal
  source_chunk_id : JsVal
  severity : String
  index : ℕ

/-- Output shape `{ text, source_document, source_chunk_id }`. -/
structure SrcOut where
  text : String
  source_document : JsVal
  source_chunk_id : JsVal

/-- Per-item body of the `risks.forEach` loop, up to the dedup map: text and
severity extraction and the `!text || isPlaceholder(text) || !severity` /
`!key` filters.  `none` = the item is skipped. -/
def riskStep (metaSource : JsVal) (index : ℕ) (risk : JsVal) :
    Except Unit (Option RiskRec) := do
  let text ← jsTrimE (jsOr (jsOr (jsGet risk "risk_de") (jsGet risk "text")) (.str ""))
  let severity := jsLowerStr (jsToStrCoerce (jsOr (jsGet risk "severity") (.str "")))
  if text = "" || isPlaceholderStr text || severity = "" then return none
  else
  let key := normalizeText text
  if key = "" then return none
  else
  let source_document := jsOr (jsGet risk "source_document") (jsOr metaSource (.str ""))
  let source_chunk_id := jsNullish (jsGet risk "source_chunk_id") .jnull
  return some ⟨text, source_document, source_chunk_id, severity, index⟩

/-- Dedup pass of `pickTopRisks`: on a key collision the existing record's
scalar fields are kept and only `source_document` is merged (which can throw
inside `mergeSourceDocuments`). -/
def riskDedup : List (String × RiskRec) → List RiskRec → Except Unit (List (String × RiskRec))
  | m, [] => .ok m
  | m, r :: rest => do
    let key := normalizeText r.text
    match alGet? m key with
    | some existing => do
      let merged ← mergeSourceDocumentsJ existing.source_document r.source_document
      riskDedup (alSet m key { existing with source_document := .str merged }) rest
    | none => riskDedup (alSet m key r) rest

/-- Source `severityRank[severity] || 1` (`high` 3, `medium` 2, `low` 1,
anything else defaults to 1). -/
def severityRankOf (s : String) : ℕ :=
  if s = "high" then 3 else if s = "medium" then 2 else 1

/-- Sort order induced by the comparator `(a, b) => bRank - aRank ||
a.index - b.index` (descending rank, input order as tie-break). -/
def riskLe (a b : RiskRec) : Prop :=
  severityRankOf b.severity < severityRankOf a.severity ∨
    (severityRankOf a.severity = severityRankOf b.severity ∧ a.index ≤ b.index)

instance : DecidableRel riskLe := fun a b => by unfold riskLe; infer_instance

instance : IsTotal RiskRec riskLe :=
  ⟨by intro a b; unfold riskLe; omega⟩

instance : IsTrans RiskRec riskLe :=
  ⟨by intro a b c; unfold riskLe; omega⟩

/-- Source `pickTopRisks` up to (and including) `.sort(...).slice(0, 5)`,
before the final projection `.map(({text, source_document, source_chunk_id})
=> ...)`: extraction with original indices, dedup map, sort, cap at 5. -/
def pickTopRisksRankedJ (risks : List JsVal) (metaSource : JsVal) :
    Except Unit (List RiskRec) := do
  let extracted ← mapME (fun p => riskStep metaSource p.1 p.2) risks.enum
  let m ← riskDedup [] (extracted.filterMap id)
  return (List.insertionSort riskLe (alValues m)).take 5

/-- Source `pickTopRisks(risks, metaSource)`. -/
def pickTopRisksJ (risks : List JsVal) (metaSource : JsVal) :
    Except Unit (List SrcOut) :=
  (pickTopRisksRankedJ risks metaSource).map
    (List.map fun r => ⟨r.text, r.source_document, r.source_chunk_id⟩)

/-! ### `pickTopRequirements` -/

/-- Intermediate record built by the initial `.map` of `pickTopRequirements`. -/
structure ReqRec where
  text : String
  detail : String
  source_document : JsVal
  source_chunk_id : JsVal
  index : ℕ

/-- Output record of `pickTopRequirements` (`SourceInfo` with optional
`detail`; `detail: req.detail || undefined` maps the empty string to
`undefined`). -/
structure ReqOut where
  text : String
  detail : Option String
  source_document : JsVal
  source_chunk_id : JsVal

/-- Initial `.map((req, index) => ...)` body: both text and detail are
trimmed (either trim can throw on a truthy non-string field). -/
def reqStep (index : ℕ) (req : JsVal) : Except Unit ReqRec := do
  let text ← jsTrimE (jsOr (jsOr (jsGet req "requirement_de") (jsGet req "text")) (.str ""))
  let detail ← jsTrimE (jsOr (jsOr (jsOr (jsGet req "explanation_de") (jsGet req "explanation"))
    (jsGet req "description_de")) (.str ""))
  return ⟨text, detail, jsOr (jsGet req "source_document") (.str ""),
    jsNullish (jsGet req "source_chunk_id") .jnull, index⟩

/-- Sort order of the comparator `aPrimary - bPrimary || a.index - b.index`
where `aPrimary` is 0 iff `a.source_document === primarySource`. -/
def reqLe (primarySource : String) (a b : ReqRec) : Prop :=
  let pa : ℕ := if jsIsStr a.source_document primarySource then 0 else 1
  let pb : ℕ := if jsIsStr b.source_document primarySource then 0 else 1
  pa < pb ∨ (pa = pb ∧ a.index ≤ b.index)

instance (ps : String) : DecidableRel (reqLe ps) := fun a b => by
  unfold reqLe; infer_instance

/-- The record pushed by the `for (const req of ordered)` loop:
`detail: req.detail || undefined` (the empty string becomes `undefined`) and
`source_document: req.source_document || primarySource || ""`. -/
def mkReqOut (primarySource : String) (r : ReqRec) : ReqOut :=
  ⟨r.text, if r.detail = "" then none else some r.detail,
   jsOr r.source_document (jsOr (.str primarySource) (.str "")),
   r.source_chunk_id⟩

/-- The `for (const req of ordered)` loop: dedup by normalized text, push the
output record, stop once 5 records were produced. -/
def reqLoop (primarySource : String) :
    List String → List ReqOut → List ReqRec → List ReqOut
  | _, acc, [] => acc.reverse
  | seen, acc, r :: rest =>
    let key := normalizeText r.text
    if seen.contains key then reqLoop primarySource seen acc rest
    else
      let out : ReqOut := mkReqOut primarySource r
      if acc.length + 1 ≥ 5 then (out :: acc).reverse
      else reqLoop primarySource (key :: seen) (out :: acc) rest

/-- Source `pickTopRequirements(requirements, metaSource)`. -/
def pickTopRequirementsJ (requirements : List JsVal) (metaSource : JsVal) :
    Except Unit (List ReqOut) := do
  let primarySource ← jsTrimE (jsOr metaSource (.str ""))
  let mapped ← mapME (fun p => reqStep p.1 p.2) requirements.enum
  let filtered := mapped.filter (fun r => !(r.text = "" || isPlaceholderStr r.text))
  let ordered := List.insertionSort (reqLe primarySource) filtered
  return reqLoop primarySource [] [] ordered

/-! ### `pickTopCriteria` -/

/-- Intermediate record of `pickTopCriteria` (the value stored in `seen`). -/
structure CritRec where
  text : String
  weight : Option ℚ
  source_document : JsVal
  source_chunk_id : JsVal

/-- Output record of `pickTopCriteria`. -/
structure CritOut where
  text : String
  source_document : JsVal
  source_chunk_id : JsVal

/-- Text extraction of a criterion item:
`(crit?.criterion_de || crit?.text || "").trim()`. -/
def critTextE (crit : JsVal) : Except Unit String :=
  jsTrimE (jsOr (jsOr (jsGet crit "criterion_de") (jsGet crit "text")) (.str ""))

/-- Weight extraction of a criterion item:
`Number(crit?.weight_percent ?? 0)` (`none` = NaN). -/
def critWeightOf (crit : JsVal) : Option ℚ :=
  jsToNumber (jsNullish (jsGet crit "weight_percent") (.num (some 0)))

/-- Per-item body of the `criteria.forEach` loop up to the dedup map: the
placeholder filter and the `Number.isFinite(weight) && weight === 0` filter
(NaN is not finite, so a NaN weight is kept). -/
def critStep (metaSource : JsVal) (crit : JsVal) : Except Unit (Option CritRec) := do
  let text ← critTextE crit
  if text = "" || isPlaceholderStr text then return none
  else
  let weight := critWeightOf crit
  if weight = some 0 then return none
  else
  return some ⟨text, weight, jsOr (jsGet crit "source_document") (jsOr metaSource (.str "")),
    jsNullish (jsGet crit "source_chunk_id") .jnull⟩

/-- JS `weight > existing.weight` (any comparison with NaN is false). -/
def weightGt (a b : Option ℚ) : Bool :=
  match a, b with
  | some x, some y => decide (y < x)
  | _, _ => false

/-- Dedup pass of `pickTopCriteria`: on a collision the higher weight wins
wholesale, otherwise only the source-document label is merged. -/
def critDedup : List (String × CritRec) → List CritRec → Except Unit (List (String × CritRec))
  | m, [] => .ok m
  | m, c :: rest => do
    let key := normalizeText c.text
    match alGet? m key with
    | none => critDedup (alSet m key c) rest
    | some existing =>
      if weightGt c.weight existing.weight then
        critDedup (alSet m key c) rest
      else do
        let merged ← mergeSourceDocumentsJ existing.source_document c.source_document
        critDedup (alSet m key { existing with source_document := .str merged }) rest

/-- Boolean sort order of the comparator `(a, b) => b.weight - a.weight`
(descending weight; any comparison involving NaN is a tie, cf. modeling
notes). -/
def critLeB (a b : CritRec) : Bool :=
  match a.weight, b.weight with
  | some x, some y => decide (y ≤ x)
  | _, _ => true

/-- Propositional form of `critLeB`. -/
def critLe (a b : CritRec) : Prop := critLeB a b = true

instance : DecidableRel critLe := fun a b => by unfold critLe; infer_instance

/-- Rendered text: `` item.weight ? `${item.text} (${item.weight}%)` :
item.text `` (both NaN and 0 are falsy). -/
def critRender (item : CritRec) : String :=
  if (match item.weight with | some q => decide (q ≠ 0) | none => false : Bool) then
    item.text ++ " (" ++ numToString item.weight ++ "%)"
  else item.text

/-- Source `pickTopCriteria(criteria, metaSource)`. -/
def pickTopCriteriaJ (criteria : List JsVal) (metaSource : JsVal) :
    Except Unit (List CritOut) := do
  let extracted ← mapME (critStep metaSource) criteria
  let m ← critDedup [] (extracted.filterMap id)
  let sorted := List.insertionSort critLe (alValues m)
  return (sorted.take 5).map (fun item =>
    ⟨critRender item, item.source_document, item.source_chunk_id⟩)

/-! ### `pickTopStrings` -/

/-- Per-item text extraction of `pickTopStrings`:
`(typeof item === "string" ? item : item?.text || "").trim()`. -/
def strItemStep (item : JsVal) : Except Unit String :=
  match item with
  | .str s => .ok (jsTrimStr s)
  | v => jsTrimE (jsOr (jsGet v "text") (.str ""))

/-- Dedup fold of `pickTopStrings` (plain first-occurrence-wins map). -/
def strDedup (m : List (String × String)) (texts : List String) : List (String × String) :=
  texts.foldl (fun m t =>
    if t = "" || isPlaceholderStr t then m
    else
      let k := normalizeText t
      if (alGet? m k).isSome then m else alSet m k t) m

/-- Source `pickTopStrings(items, limit = 5)`. -/
def pickTopStringsJ (items : List JsVal) (limit : ℕ) : Except Unit (List String) := do
  let texts ← mapME strItemStep items
  return (alValues (strDedup [] texts)).take limit

/-! ### `buildTimelineSteps` -/

/-- The six fixed bucket keys, in declaration order. -/
inductive BucketKey where
  | preparation
  | review
  | submission
  | clarifications
  | award
  | execution
deriving DecidableEq

/-- Source `buckets` array order. -/
def bucketOrder : List BucketKey :=
  [.preparation, .review, .submission, .clarifications, .award, .execution]

/-- Keyword set of each bucket (source `buckets[i].keywords`). -/
def bucketKeywords : BucketKey → List String
  | .preparation => ["vorbereitung", "planung", "beschaffung", "bereitstellung"]
  | .review => ["freigabe", "review", "prüfung", "genehmigung"]
  | .submission => ["abgabe", "einreich", "submission", "angebot"]
  | .clarifications => ["nachforderung", "klärung", "rückfrage", "clarification"]
  | .award => ["zuschlag", "vergabeentscheidung", "entscheidung", "award"]
  | .execution => ["leistungsbeginn", "ausführung", "beginn", "start"]

/-- Normalized step record built by the initial `.map` of
`buildTimelineSteps`. -/
structure StepRec where
  title_de : String
  description_de : String
  days_de : String
  source_document : JsVal
  source_chunk_id : JsVal
  index : ℕ

/-- Output record (after renumbering). -/
structure StepOut where
  step : ℕ
  title_de : String
  description_de : String
  days_de : String
  source_document : JsVal
  source_chunk_id : JsVal

/-- Initial `.map((step, index) => ...)` body of `buildTimelineSteps` (the
three `.trim()` calls can throw). -/
def stepMap (metaSource : JsVal) (index : ℕ) (step : JsVal) : Except Unit StepRec := do
  let title ← jsTrimE (jsOr (jsGet step "title_de") (.str ""))
  let desc ← jsTrimE (jsOr (jsGet step "description_de") (.str ""))
  let days ← jsTrimE (jsOr (jsGet step "days_de") (.str ""))
  return ⟨title, desc, days, jsOr (jsGet step "source_document") (jsOr metaSource (.str "")),
    jsNullish (jsGet step "source_chunk_id") .jnull, index⟩

/-- Extraction phase: map then `.filter(step => step.title_de &&
!isPlaceholder(step.title_de))`. -/
def validStepsOf (steps : List JsVal) (metaSource : JsVal) : Except Unit (List StepRec) := do
  let mapped ← mapME (fun p => stepMap metaSource p.1 p.2) steps.enum
  return mapped.filter (fun s => !(s.title_de = "" || isPlaceholderStr s.title_de))

/-- Does the haystack `normalized(title + " " + description)` contain one of
the bucket's keywords? -/
def bucketMatches (b : BucketKey) (s : StepRec) : Bool :=
  (bucketKeywords b).any (fun kw =>
    strContains (normalizeText (s.title_de ++ " " ++ s.description_de)) kw)

/-- Source `buckets.find(b => b.keywords.some(k => haystack.includes(k)))`:
the first bucket, in declaration order, whose keyword set matches. -/
def assignBucket (s : StepRec) : Option BucketKey :=
  bucketOrder.find? (fun b => bucketMatches b s)

/-- The `validSteps.forEach` fold over the `bucketed` record: only the first
step assigned to a bucket is stored. -/
def foldBuckets (st : BucketKey → Option StepRec) : List StepRec → (BucketKey → Option StepRec)
  | [] => st
  | s :: rest =>
    match assignBucket s with
    | none => foldBuckets st rest
    | some k =>
      if (st k).isSome then foldBuckets st rest
      else foldBuckets (fun k' => if k' = k then some s else st k') rest

/-- The synthesized submission step (`Number.MAX_SAFE_INTEGER` index). -/
def synthSubmission (timeline metaSource : JsVal) : StepRec :=
  ⟨"Angebotsabgabe",
   "Abgabefrist: " ++ jsToStrCoerce (jsGet timeline "submission_deadline_de"),
   "",
   jsOr (jsGet timeline "source_document") (jsOr metaSource (.str "")),
   .jnull, 9007199254740991⟩

/-- Bucket contents after the fallback: if the submission bucket is empty and
`timeline?.submission_deadline_de` is truthy, it is filled with the
synthesized step. -/
def finalBuckets (vs : List StepRec) (timeline metaSource : JsVal) :
    BucketKey → Option StepRec :=
  let st := foldBuckets (fun _ => none) vs
  if (st .submission).isNone && jsTruthy (jsGet timeline "submission_deadline_de") then
    fun k => if k = .submission then some (synthSubmission timeline metaSource) else st k
  else st

/-- Source `buildTimelineSteps(steps, timeline, metaSource)`: assemble the
buckets in order, drop empty ones, cap at 6, renumber from 1. -/
def buildTimelineStepsJ (steps : List JsVal) (timeline metaSource : JsVal) :
    Except Unit (List StepOut) := do
  let vs ← validStepsOf steps metaSource
  let chosen := (bucketOrder.filterMap (finalBuckets vs timeline metaSource)).take 6
  return chosen.enum.map (fun p =>
    ⟨p.1 + 1, p.2.title_de, p.2.description_de, p.2.days_de,
     p.2.source_document, p.2.source_chunk_id⟩)

/-! ### Heuristic scorers -/

/-- JS `Math.round` (half away from zero is JS behaviour only for positive
halves; `Math.round` is floor(x + 1/2), which this is). -/
def jsRound (q : ℚ) : ℤ := ⌊q + 1 / 2⌋

/-- Source `pct(hits, total)`: integer percentage, 0 when `total` is 0. -/
def pct (hits total : ℚ) : ℤ :=
  if total = 0 then 0 else jsRound (100 * hits / total)

/-- Ids of the `REQUIRED_Q` question list (the German label/hint texts do not
influence any computation and are elided). -/
def REQUIRED_Q : List String :=
  ["experience", "fleetCapacity", "equipmentTypes", "logistics",
   "operators", "maintenance", "safety", "emergency"]

/-- Is `answers[q]?.trim()` truthy (a non-empty trimmed string)? -/
def hasAnswer (answers : List (String × String)) (q : String) : Bool :=
  match alGet? answers q with
  | none => false
  | some s => decide (jsTrimStr s ≠ "")

/-! ### `Tender` view model -/

/-- Shape `{ text, source_document, source_chunk_id }` holding raw JS values
(used for `scopeOfWorkSource` and the missing-evidence records, which are
built without trimming). -/
structure JsSrcRec where
  text : JsVal
  source_document : JsVal
  source_chunk_id : JsVal

/-- The `sources` provenance map of a `Tender`. -/
structure SourcesRec where
  title : JsVal
  buyer : JsVal
  mustCriteria : JsVal
  logistics : JsVal
  deadline : JsVal
  certifications : JsVal
  scopeOfWork : JsVal
  pricingModel : JsVal
  penalties : JsVal
  evaluationCriteria : JsVal
  submission : JsVal
  legalRisks : JsVal

/-- The `Tender` view model as produced by `mapSummaryToTender` (fields that
receive raw bundle values are `JsVal`-typed; fields that the pipeline
guarantees to be strings are `String`-typed). -/
structure Tender where
  id : JsVal
  title : JsVal
  buyer : JsVal
  region : JsVal
  deadline : JsVal
  url : String
  score : ℚ
  legalRisks : List String
  legalRisksWithSource : List SrcOut
  mustHits : ℕ
  mustTotal : ℕ
  canHits : ℕ
  canTotal : ℕ
  serviceTypes : List String
  scopeOfWork : JsVal
  scopeOfWorkSource : JsSrcRec
  submission : List String
  submissionWithSource : List ReqOut
  certifications : List String
  evaluationCriteria : List String
  evaluationCriteriaWithSource : List CritOut
  safety : List JsVal
  penalties : List String
  processSteps : List StepOut
  projectDuration : JsVal
  economicAnalysis : JsVal
  missingEvidence : List JsVal
  missingEvidenceWithSource : List JsSrcRec
  sources : SourcesRec

/-- Source `computeWinProbability(tender, missingCount, answers, mustPct)`. -/
def computeWinProbability (tender : Option Tender) (missingCount : ℕ)
    (answers : List (String × String)) (mustPct : ℚ) : ℤ :=
  match tender with
  | none => 0
  | some t =>
    let docPenalty : ℚ := missingCount * 4
    let qMissing : ℕ := (REQUIRED_Q.filter (fun q => !hasAnswer answers q)).length
    let qPenalty : ℚ := qMissing * 3
    let base : ℚ := max 0 (t.score - docPenalty - qPenalty)
    let mustBoost : ℤ := jsRound (mustPct * (1 / 5))
    max 1 (min 99 (jsRound ((base + mustBoost) * (9 / 10) + 5)))

/-- The alternation of the source regex
`/Hamburg|Bremen|Hannover|Berlin|München|Köln|Stuttgart|Depot/i`, lowered
(the `i` flag is modeled by lowering both sides; see modeling notes). -/
def depotAlternatives : List String :=
  ["hamburg", "bremen", "hannover", "berlin", "münchen", "köln", "stuttgart", "depot"]

/-- Case-insensitive regex test of the depot alternation against `fleetStr`. -/
def depotRegexTest (fleetStr : String) : Bool :=
  depotAlternatives.any (fun pat => strContains (jsLowerStr fleetStr) pat)

/-- Source `routeFeasibilityScore(distanceKm, projectDays, fleetStr)`. -/
def routeFeasibilityScore (distanceKm projectDays : ℚ) (fleetStr : String) : ℤ :=
  let regionalDepots : ℚ := if depotRegexTest fleetStr then 1 else 0
  let distancePenalty : ℚ := max 0 (distanceKm - 50) * (2 / 5)
  let durationBonus : ℚ := min 10 (projectDays / 30 * 2)
  let raw : ℚ := 100 - distancePenalty + durationBonus + regionalDepots * 8
  max 0 (min 100 (jsRound raw))

/-! ### `JSON.parse(JSON.stringify(...))` deep clone -/

/- Deep clone: `undefined` object members are dropped, `undefined` array
elements and NaN become `null`.  (The top-level argument is always truthy or
`{}` in the source, so the `undef => jnull` top case is unreachable there.) -/
mutual
def jsonClone : JsVal → JsVal
  | .undef => .jnull
  | .jnull => .jnull
  | .num none => .jnull
  | .num (some q) => .num (some q)
  | .str s => .str s
  | .arr l => .arr (jsonCloneArr l)
  | .obj fs => .obj (jsonCloneObj fs)
def jsonCloneArr : JsArr → JsArr
  | .nil => .nil
  | .cons v rest => .cons (jsonClone v) (jsonCloneArr rest)
def jsonCloneObj : JsObj → JsObj
  | .nil => .nil
  | .cons k v rest =>
    match v with
    | .undef => jsonCloneObj rest
    | v => .cons k (jsonClone v) (jsonCloneObj rest)
end

/-! ### `mapSummaryToTender` -/

/-- The payload handed to `mapSummaryToTender` (`total_files` etc. are never
read and elided). -/
structure BatchSummaryPayload where
  batchId : String
  run_id : String
  ui_json : JsVal

/-- Monadic filter, as JS `Array.prototype.filter` with a predicate that can
throw. -/
def filterE {α : Type} (p : α → Except Unit Bool) : List α → Except Unit (List α)
  | [] => .ok []
  | x :: rest => do
    let b ← p x
    let r ← filterE p rest
    return if b then x :: r else r

/-- Predicate of the missing-evidence filter:
`doc.text && !isPlaceholder(doc.text)`. -/
def missEvidenceKeep (rec : JsSrcRec) : Except Unit Bool :=
  if jsTruthy rec.text then do
    let ph ← isPlaceholderJ rec.text
    return !ph
  else return false

/-- Source `mapSummaryToTender(payload)`. -/
def mapSummaryToTenderJ (payload : BatchSummaryPayload) : Except Unit Tender := do
  let uiJson := jsonClone (jsOr payload.ui_json (jObj []))
  let meta := jsOr (jsGet uiJson "meta") (jObj [])
  let executive := jsOr (jsGet uiJson "executive_summary") (jObj [])
  let timeline := jsOr (jsGet uiJson "timeline_milestones") (jObj [])
  let requirements := jsArrElems (jsGet uiJson "mandatory_requirements")
  let risks := jsArrElems (jsGet uiJson "risks")
  let serviceTypes := jsArrElems (jsGet uiJson "service_types")
  let evaluationCriteria := jsArrElems (jsGet uiJson "evaluation_criteria")
  let safety := jsArrElems (jsGet uiJson "safety_requirements")
  let penaltiesRaw := jsArrElems (jsGet uiJson "contract_penalties")
  let certificationsRaw := jsArrElems (jsGet uiJson "certifications_required")
  let processSteps := jsArrElems (jsGet uiJson "process_steps")
  let missingEvidence := jsArrElems (jsGet uiJson "missing_evidence_documents")
  let deadline := jsOr (jsGet timeline "submission_deadline_de") .jnull
  let metaSource := jsGet meta "source_document"
  let submissionWithSource ← pickTopRequirementsJ requirements metaSource
  let legalRisksWithSource ← pickTopRisksJ risks metaSource
  let evaluationCriteriaWithSource ← pickTopCriteriaJ evaluationCriteria metaSource
  let missingEvidenceWithSource ← filterE missEvidenceKeep
    (missingEvidence.map (fun doc =>
      ⟨jsOr (jsGet doc "document_de") (jsGet doc "text"),
       jsOr (jsGet doc "source_document") (jsOr metaSource (.str "")),
       jsNullish (jsGet doc "source_chunk_id") .jnull⟩))
  let scopeOfWorkSource : JsSrcRec :=
    ⟨jsOr (jsGet executive "brief_description_de") (.str ""),
     jsOr (jsGet executive "source_document") (jsOr metaSource (.str "")),
     .jnull⟩
  let penalties ← pickTopStringsJ penaltiesRaw 5
  let certifications ← pickTopStringsJ certificationsRaw 5
  let timelineSteps ← buildTimelineStepsJ processSteps timeline metaSource
  let serviceTypesTop ← pickTopStringsJ serviceTypes 7
  return {
    id := jsOr (jsGet meta "tender_id") (jsOr (.str payload.run_id) (.str payload.batchId)),
    title := jsOr (jsGet meta "tender_title") (jsOr (jsGet executive "title_de")
      (jsOr (jsGet meta "tender_id") (.str "Missing Title"))),
    buyer := jsOr (jsGet meta "organization") (jsOr (jsGet executive "organization_de")
      (.str "Missing Organization")),
    region := jsOr (jsGet executive "location_de") (.str "DE"),
    deadline := deadline,
    url := "",
    score := 85,
    legalRisks := legalRisksWithSource.map (·.text),
    legalRisksWithSource := legalRisksWithSource,
    mustHits := min requirements.length 5,
    mustTotal := min requirements.length 5,
    canHits := 0,
    canTotal := 0,
    serviceTypes := serviceTypesTop,
    scopeOfWork := jsOr (jsGet executive "brief_description_de") (.str ""),
    scopeOfWorkSource := scopeOfWorkSource,
    submission := submissionWithSource.map (·.text),
    submissionWithSource := submissionWithSource,
    certifications := certifications,
    evaluationCriteria := evaluationCriteriaWithSource.map (·.text),
    evaluationCriteriaWithSource := evaluationCriteriaWithSource,
    safety := safety,
    penalties := penalties,
    processSteps := timelineSteps,
    projectDuration := jsOr (jsGet timeline "project_duration_de") .jnull,
    economicAnalysis := jsOr (jsGet uiJson "economic_analysis") .undef,
    missingEvidence := missingEvidenceWithSource.map (·.text),
    missingEvidenceWithSource := missingEvidenceWithSource,
    sources := {
      title := jsOr metaSource (.str ""),
      buyer := jsOr metaSource (jsOr (jsGet executive "source_document") (.str "")),
      mustCriteria := jsOr ((submissionWithSource.head?.map (·.source_document)).getD .undef)
        (jsOr metaSource (.str "")),
      logistics := jsOr (jsGet executive "source_document") (jsOr metaSource (.str "")),
      deadline := jsOr (jsGet timeline "source_document") (jsOr metaSource (.str "")),
      certifications := jsOr metaSource (.str ""),
      scopeOfWork := jsOr (jsGet executive "source_document") (jsOr metaSource (.str "")),
      pricingModel := .str "",
      penalties := jsOr metaSource (.str ""),
      evaluationCriteria := jsOr ((evaluationCriteriaWithSource.head?.map (·.source_document)).getD .undef)
        (jsOr metaSource (.str "")),
      submission := jsOr ((submissionWithSource.head?.map (·.source_document)).getD .undef)
        (jsOr metaSource (.str "")),
      legalRisks := jsOr ((legalRisksWithSource.head?.map (·.source_document)).getD .undef)
        (jsOr metaSource (.str "")) } }

/-! ### Spec-words models used for refinement comparisons -/

/-- Modelled from the spec (4.2 contract wording): the semicolon-joined,
deduplicated, order-stable list of the distinct non-empty trimmed labels. -/
def mergeSourceDocumentsSpec (a b : Option String) : String :=
  String.intercalate "; "
    (dedupFirst ((([a, b].filterMap id).map jsTrimStr).filter (· ≠ "")))

/-- Modelled from claim C5's wording: the seven-city list without the extra
`"Depot"` alternative that the source regex actually contains. -/
def depotCityOnlyList : List String :=
  ["hamburg", "bremen", "hannover", "berlin", "münchen", "köln", "stuttgart"]

/-- Case-insensitive substring test against the seven-city list (claim C5's
reading of the bonus trigger). -/
def mentionsDepotCity (fleetStr : String) : Bool :=
  depotCityOnlyList.any (fun pat => strContains (jsLowerStr fleetStr) pat)

/-- Route-feasibility formula as claim C5 states it (bonus only for a city of
the fixed list). -/
def routeFeasibilityClaim (distanceKm projectDays : ℚ) (fleetStr : String) : ℤ :=
  max 0 (min 100 (jsRound (100 - max 0 (distanceKm - 50) * (2 / 5) +
    min 10 (projectDays / 30 * 2) + (if mentionsDepotCity fleetStr then 8 else 0))))

/-! ### Small evaluation lemmas -/

@[simp] theorem jsTruthy_undef : jsTruthy .undef = false := rfl

@[simp] theorem jsTruthy_jnull : jsTruthy .jnull = false := rfl

@[simp] theorem jsTruthy_str (s : String) : jsTruthy (.str s) = decide (s ≠ "") := rfl

@[simp] theorem jsOr_undef (b : JsVal) : jsOr .undef b = b := rfl

@[simp] theorem jsTrimE_str (s : String) : jsTrimE (.str s) = .ok (jsTrimStr s) := rfl

@[simp] theorem jsTrimStr_empty : jsTrimStr "" = "" := rfl

@[simp] theorem exBind_ok {α β : Type} (x : α) (f : α → Except Unit β) :
    (Except.ok x >>= f : Except Unit β) = f x := rfl

@[simp] theorem exBind_error {α β : Type} (f : α → Except Unit β) :
    (Except.error () >>= f : Except Unit β) = .error () := rfl

@[simp] theorem exFmap_ok {α β : Type} (g : α → β) (x : α) :
    (g <$> (Except.ok x : Except Unit α)) = .ok (g x) := rfl

@[simp] theorem exFmap_error {α β : Type} (g : α → β) :
    (g <$> (Except.error () : Except Unit α)) = (.error () : Except Unit β) := rfl

@[simp] theorem exEMap_ok {α β : Type} (g : α → β) (x : α) :
    Except.map g (Except.ok x : Except Unit α) = .ok (g x) := rfl

@[simp] theorem exEMap_error {α β : Type} (g : α → β) :
    Except.map g (Except.error () : Except Unit α) = (.error () : Except Unit β) := rfl

@[simp] theorem mapME_nil {α β : Type} (f : α → Except Unit β) : mapME f [] = .ok [] := rfl

@[simp] theorem mapME_cons {α β : Type} (f : α → Except Unit β) (x : α) (l : List α) :
    mapME f (x :: l) = do
      let y ← f x
      let ys ← mapME f l
      return y :: ys := rfl

/-! ### Concrete fixtures used by counterexamples and witnesses -/

/-- A `Tender` value with the given score (all other fields neutral; only
`score` is read by `computeWinProbability`). -/
def mkTestTender (score : ℚ) : Tender :=
  { id := .str "t-test", title := .str "Testausschreibung", buyer := .str "Stadt",
    region := .str "DE", deadline := .jnull, url := "", score := score,
    legalRisks := [], legalRisksWithSource := [], mustHits := 0, mustTotal := 0,
    canHits := 0, canTotal := 0, serviceTypes := [], scopeOfWork := .str "",
    scopeOfWorkSource := ⟨.str "", .str "", .jnull⟩, submission := [],
    submissionWithSource := [], certifications := [], evaluationCriteria := [],
    evaluationCriteriaWithSource := [], safety := [], penalties := [],
    processSteps := [], projectDuration := .jnull, economicAnalysis := .undef,
    missingEvidence := [], missingEvidenceWithSource := [],
    sources := ⟨.str "", .str "", .str "", .str "", .str "", .str "", .str "",
      .str "", .str "", .str "", .str "", .str ""⟩ }

/-- The extraction bundle whose optional sections are all the placeholder
string `"unbekannt"` (claim C2's scenario). -/
def unkBundle : JsVal :=
  jObj [("meta", .str "unbekannt"), ("executive_summary", .str "unbekannt"),
    ("timeline_milestones", .str "unbekannt"), ("mandatory_requirements", .str "unbekannt"),
    ("risks", .str "unbekannt"), ("service_types", .str "unbekannt"),
    ("evaluation_criteria", .str "unbekannt"), ("safety_requirements", .str "unbekannt"),
    ("contract_penalties", .str "unbekannt"), ("certifications_required", .str "unbekannt"),
    ("process_steps", .str "unbekannt"), ("missing_evidence_documents", .str "unbekannt"),
    ("economic_analysis", .str "unbekannt")]

/-- The payload wrapping `unkBundle`. -/
def unkPayload : BatchSummaryPayload := ⟨"b1", "r1", unkBundle⟩

/-! ### Claim C9 -/

/-- Claim C9 (confirmed): `mergeSourceDocuments` returns the semicolon-joined
(`"; "`), deduplicated, order-preserving list of the distinct non-empty
trimmed input labels, and in particular `("A","A") ↦ "A"`,
`("A","B") ↦ "A; B"`, `(undefined,"B") ↦ "B"`. -/
theorem mergeSourceDocuments_contract :
    (∀ a b : Option String,
      mergeSourceDocumentsJ (optStr a) (optStr b) = .ok (mergeSourceDocumentsSpec a b)) ∧
    mergeSourceDocumentsJ (.str "A") (.str "A") = .ok "A" ∧
    mergeSourceDocumentsJ (.str "A") (.str "B") = .ok "A; B" ∧
    mergeSourceDocumentsJ .undef (.str "B") = .ok "B" := by
  refine ⟨?_, rfl, rfl, rfl⟩
  intro a b
  cases a with
  | none =>
    cases b with
    | none => rfl
    | some t =>
      by_cases ht : t = ""
      · subst ht; rfl
      · simp [mergeSourceDocumentsJ, mergeSourceDocumentsSpec, optStr, jsOr, ht,
          List.filter_cons]
  | some s =>
    by_cases hs : s = ""
    · subst hs
      cases b with
      | none => rfl
      | some t =>
        by_cases ht : t = ""
        · subst ht; rfl
        · simp [mergeSourceDocumentsJ, mergeSourceDocumentsSpec, optStr, jsOr, ht,
            List.filter_cons]
    · cases b with
      | none =>
        simp [mergeSourceDocumentsJ, mergeSourceDocumentsSpec, optStr, jsOr, hs,
          List.filter_cons]
      | some t =>
        by_cases ht : t = ""
        · subst ht
          simp [mergeSourceDocumentsJ, mergeSourceDocumentsSpec, optStr, jsOr, hs,
            List.filter_cons]
        · simp [mergeSourceDocumentsJ, mergeSourceDocumentsSpec, optStr, jsOr, hs, ht,
            List.filter_cons]

/-! ### Claim C2 -/

/-- Claim C2 (confirmed): for the bundle whose optional sections are all the
string `"unbekannt"`, `mapSummaryToTender` succeeds (no exception), all Top-N
lists (risks, requirements, evaluation criteria, missing evidence, timeline
steps — and the further string lists) are empty, and the scalar text fields
take their defaults: title `"Missing Title"`, buyer `"Missing Organization"`,
scope of work and url the empty string, deadline `null`. -/
theorem mapSummaryToTender_unbekannt_bundle :
    (mapSummaryToTenderJ unkPayload).isOk = true ∧
    (mapSummaryToTenderJ unkPayload).map (·.legalRisksWithSource) = .ok [] ∧
    (mapSummaryToTenderJ unkPayload).map (·.submissionWithSource) = .ok [] ∧
    (mapSummaryToTenderJ unkPayload).map (·.evaluationCriteriaWithSource) = .ok [] ∧
    (mapSummaryToTenderJ unkPayload).map (·.missingEvidenceWithSource) = .ok [] ∧
    (mapSummaryToTenderJ unkPayload).map (·.processSteps) = .ok [] ∧
    (mapSummaryToTenderJ unkPayload).map (·.serviceTypes) = .ok [] ∧
    (mapSummaryToTenderJ unkPayload).map (·.penalties) = .ok [] ∧
    (mapSummaryToTenderJ unkPayload).map (·.certifications) = .ok [] ∧
    (mapSummaryToTenderJ unkPayload).map (·.title) = .ok (.str "Missing Title") ∧
    (mapSummaryToTenderJ unkPayload).map (·.buyer) = .ok (.str "Missing Organization") ∧
    (mapSummaryToTenderJ unkPayload).map (·.scopeOfWork) = .ok (.str "") ∧
    (mapSummaryToTenderJ unkPayload).map (·.url) = .ok "" ∧
    (mapSummaryToTenderJ unkPayload).map (·.deadline) = .ok .jnull :=
  ⟨rfl, rfl, rfl, rfl, rfl, rfl, rfl, rfl, rfl, rfl, rfl, rfl, rfl, rfl⟩

/-! ### Claim C5 -/

/-- Claim C5, counterexample: `"Depot"` mentions no city of the fixed
regional depot-city list, yet `routeFeasibilityScore 75 0 "Depot"` receives
the +8 bonus (98 instead of the 90 the claim's formula predicts), because the
source regex alternation contains the extra non-city alternative `Depot`. -/
theorem routeFeasibility_depot_cex :
    mentionsDepotCity "Depot" = false ∧
    routeFeasibilityScore 75 0 "Depot" = 98 ∧
    routeFeasibilityClaim 75 0 "Depot" = 90 := by
  refine ⟨rfl, ?_, ?_⟩
  · have h : depotRegexTest "Depot" = true := rfl
    rw [routeFeasibilityScore, h]
    norm_num [jsRound, max_def, min_def]
  · have h : mentionsDepotCity "Depot" = false := rfl
    rw [routeFeasibilityClaim, h]
    norm_num [jsRound, max_def, min_def]

/-- Claim C5 as amended: `routeFeasibility` computes
`100 - max(0, distanceKm-50)*0.4 + min(10, projectDays/30*2)` plus a bonus of
exactly 8 when the fleet description contains, case-insensitively, one of
Hamburg, Bremen, Hannover, Berlin, München, Köln, Stuttgart **or the word
"Depot"**, rounded and clamped to [0,100]; a description containing none of
these eight patterns receives no bonus. -/
theorem routeFeasibility_formula :
    (∀ (d p : ℚ) (f : String),
      routeFeasibilityScore d p f =
        max 0 (min 100 (jsRound (100 - max 0 (d - 50) * (2 / 5) + min 10 (p / 30 * 2) +
          (if depotRegexTest f then 8 else 0))))) ∧
    (∀ (d p : ℚ) (f : String), depotRegexTest f = false →
      routeFeasibilityScore d p f =
        max 0 (min 100 (jsRound (100 - max 0 (d - 50) * (2 / 5) + min 10 (p / 30 * 2))))) := by
  have key : ∀ (d p : ℚ) (f : String),
      routeFeasibilityScore d p f =
        max 0 (min 100 (jsRound (100 - max 0 (d - 50) * (2 / 5) + min 10 (p / 30 * 2) +
          (if depotRegexTest f then 8 else 0)))) := by
    intro d p f
    rw [routeFeasibilityScore]
    rcases h : depotRegexTest f <;> simp [h]
  refine ⟨key, fun d p f hf => ?_⟩
  rw [key d p f, hf]
  simp

/-- Witness for `routeFeasibility_formula` at a fleet description matching
none of the eight patterns. -/
theorem routeFeasibility_formula_witness :
    depotRegexTest "nur Eigenfuhrpark" = false ∧
    routeFeasibilityScore 75 0 "nur Eigenfuhrpark" =
      max 0 (min 100 (jsRound (100 - max 0 ((75 : ℚ) - 50) * (2 / 5) +
        min 10 ((0 : ℚ) / 30 * 2)))) :=
  ⟨rfl, routeFeasibility_formula.2 75 0 "nur Eigenfuhrpark" rfl⟩

/-! ### Claim C3 -/

/-- Claim C3, counterexample: for a tender with score 0 (and no answers) the
claimed strict inequality `winProbability(t, 5, answers, 80) <
winProbability(t, 0, answers, 80)` fails — the base saturates at 0 and both
sides equal 19. -/
theorem winProbability_strictness_cex :
    computeWinProbability (some (mkTestTender 0)) 5 [] 80 = 19 ∧
    computeWinProbability (some (mkTestTender 0)) 0 [] 80 = 19 ∧
    ¬ (computeWinProbability (some (mkTestTender 0)) 5 [] 80 <
       computeWinProbability (some (mkTestTender 0)) 0 [] 80) := by
  have hq : (REQUIRED_Q.filter (fun q => !hasAnswer [] q)).length = 8 := rfl
  have h5 : computeWinProbability (some (mkTestTender 0)) 5 [] 80 = 19 := by
    rw [computeWinProbability, hq]
    norm_num [mkTestTender, jsRound, max_def, min_def]
  have h0 : computeWinProbability (some (mkTestTender 0)) 0 [] 80 = 19 := by
    rw [computeWinProbability, hq]
    norm_num [mkTestTender, jsRound, max_def, min_def]
  exact ⟨h5, h0, by rw [h5, h0]; omega⟩

/-- Claim C3 as amended: `winProbability` with a null tender returns 0; for
every non-null tender and fixed answers map the value at 5 missing documents
is **at most** (not strictly below) the value at 0 missing documents; and for
a non-null tender the result always lies in [1,99] (so overall in [0,99],
with 0 only for the null tender). -/
theorem winProbability_monotone_bounds :
    (∀ (m : ℕ) (a : List (String × String)) (p : ℚ),
      computeWinProbability none m a p = 0) ∧
    (∀ (t : Tender) (a : List (String × String)),
      computeWinProbability (some t) 5 a 80 ≤ computeWinProbability (some t) 0 a 80) ∧
    (∀ (t : Tender) (m : ℕ) (a : List (String × String)) (p : ℚ),
      1 ≤ computeWinProbability (some t) m a p ∧
        computeWinProbability (some t) m a p ≤ 99) := by
  refine ⟨fun _ _ _ => rfl, ?_, ?_⟩
  · intro t a
    rw [computeWinProbability, computeWinProbability]
    refine max_le_max le_rfl (min_le_min le_rfl ?_)
    simp only [jsRound]
    apply Int.floor_le_floor
    gcongr
    norm_num
  · intro t m a p
    rw [computeWinProbability]
    constructor
    · exact le_max_left 1 _
    · exact max_le (by norm_num) (min_le_left _ _)

/-! ### Claim C10 -/

/-- Claim C10 (confirmed): `computeWinProbability` depends on the answers map
only through which `REQUIRED_Q` ids have a non-empty trimmed answer — two
answer maps that agree on `hasAnswer` for every required id yield the same
value for equal tender, missing-document count and must-percentage. -/
theorem winProbability_answers_extensional
    (t : Option Tender) (m : ℕ) (p : ℚ) (a1 a2 : List (String × String))
    (h : ∀ q ∈ REQUIRED_Q, hasAnswer a1 q = hasAnswer a2 q) :
    computeWinProbability t m a1 p = computeWinProbability t m a2 p := by
  cases t with
  | none => rfl
  | some t =>
    rw [computeWinProbability, computeWinProbability]
    have hf : REQUIRED_Q.filter (fun q => !hasAnswer a1 q)
        = REQUIRED_Q.filter (fun q => !hasAnswer a2 q) :=
      List.filter_congr (fun q hq => by rw [h q hq])
    rw [hf]

/-- Witness for `winProbability_answers_extensional`: two answer maps whose
wording differs but whose answered-ids agree give the same score. -/
theorem winProbability_answers_extensional_witness :
    computeWinProbability (some (mkTestTender 91)) 2
        [("experience", "10 Jahre Erfahrung")] 80 =
      computeWinProbability (some (mkTestTender 91)) 2
        [("experience", "zwei Jahrzehnte Branchenerfahrung")] 80 :=
  winProbability_answers_extensional (some (mkTestTender 91)) 2 80 _ _ (by decide)

/-! ### Claim C1 -/

/-- JS `pure` for `Except` is `ok`. -/
@[simp] theorem exPure {α : Type} (x : α) : (pure x : Except Unit α) = .ok x := rfl

/-- Appending input lists splits a sequential monadic map. -/
theorem mapME_append {α β : Type} (f : α → Except Unit β) (l1 l2 : List α) :
    mapME f (l1 ++ l2) = do
      let xs ← mapME f l1
      let ys ← mapME f l2
      return xs ++ ys := by
  induction l1 with
  | nil =>
    simp only [List.nil_append, mapME_nil, exBind_ok]
    cases mapME f l2 <;> rfl
  | cons x rest ih =>
    simp only [List.cons_append, mapME_cons, ih]
    cases f x with
    | error e => cases e; rfl
    | ok y =>
      simp only [exBind_ok]
      cases mapME f rest with
      | error e => cases e; rfl
      | ok ys =>
        simp only [exBind_ok]
        cases mapME f l2 <;> rfl

/-- Claim C1, counterexample: a criterion with non-placeholder text and
**absent** `weight_percent` does not appear in the output — the missing
weight is coerced by `?? 0` to the finite number 0 and the item is dropped
(the claim asserts it is kept). -/
theorem pickTopCriteria_missing_weight_cex :
    pickTopCriteriaJ [jObj [("criterion_de", .str "Qualitätsmanagement")]] (.undef)
      = .ok [] := rfl

/-- Claim C1 as amended: `pickTopCriteria` excludes every criterion whose
coerced weight `Number(weight_percent ?? 0)` is the finite number 0 — which
covers both an explicit `weight_percent === 0` and a missing `weight_percent`
(coerced to 0); removing such an item from any position never changes the
output.  An item with non-placeholder text and a non-numeric (NaN) weight
is kept. -/
theorem pickTopCriteria_weight_filter :
    (∀ (ms : JsVal) (l1 l2 : List JsVal) (c : JsVal) (t : String),
      critTextE c = .ok t → critWeightOf c = some 0 →
      pickTopCriteriaJ (l1 ++ c :: l2) ms = pickTopCriteriaJ (l1 ++ l2) ms) ∧
    pickTopCriteriaJ [jObj [("criterion_de", .str "Servicequalität"),
        ("weight_percent", .str "hoch")]] (.undef)
      = .ok [⟨"Servicequalität", .str "", .jnull⟩] := by
  refine ⟨?_, rfl⟩
  intro ms l1 l2 c t ht hw
  have hstep : critStep ms c = .ok none := by
    simp [critStep, ht, hw]
  unfold pickTopCriteriaJ
  rw [mapME_append, mapME_append, mapME_cons, hstep]
  cases hx : mapME (critStep ms) l1 with
  | error e => cases e; rfl
  | ok xs =>
    simp only [exBind_ok]
    cases hy : mapME (critStep ms) l2 with
    | error e => cases e; rfl
    | ok ys => simp [List.filterMap_append]

/-- Witness for `pickTopCriteria_weight_filter`: a criterion with missing
weight is dropped from the front of a two-element array. -/
theorem pickTopCriteria_weight_filter_witness :
    critTextE (jObj [("criterion_de", .str "Preisgestaltung")]) = .ok "Preisgestaltung" ∧
    critWeightOf (jObj [("criterion_de", .str "Preisgestaltung")]) = some 0 ∧
    pickTopCriteriaJ [jObj [("criterion_de", .str "Preisgestaltung")],
        jObj [("criterion_de", .str "Servicequalität"), ("weight_percent", .str "hoch")]] (.undef)
      = pickTopCriteriaJ [jObj [("criterion_de", .str "Servicequalität"),
        ("weight_percent", .str "hoch")]] .undef :=
  ⟨rfl, rfl,
    pickTopCriteria_weight_filter.1 .undef []
      [jObj [("criterion_de", .str "Servicequalität"), ("weight_percent", .str "hoch")]]
      (jObj [("criterion_de", .str "Preisgestaltung")]) "Preisgestaltung" rfl rfl⟩

/-! ### Claim C4 -/

/-- Invariant of the `for (const req of ordered)` loop: every produced record
has a detail that is not the empty string (`req.detail || undefined` maps
`""` to `undefined`). -/
theorem reqLoop_detail_ne_empty (ps : String) :
    ∀ (l : List ReqRec) (seen : List String) (acc : List ReqOut),
      (∀ r ∈ acc, r.detail ≠ some "") →
      ∀ r ∈ reqLoop ps seen acc l, r.detail ≠ some "" := by
  intro l
  induction l with
  | nil =>
    intro seen acc hacc r hr
    rw [reqLoop] at hr
    exact hacc r (List.mem_reverse.mp hr)
  | cons x rest ih =>
    intro seen acc hacc r hr
    rw [reqLoop] at hr
    have hout : ∀ r' ∈ mkReqOut ps x :: acc, r'.detail ≠ some "" := by
      intro r' hr'
      rcases List.mem_cons.mp hr' with h | h
      · subst h
        by_cases hd : x.detail = ""
        · simp [mkReqOut, hd]
        · simp [mkReqOut, hd]
      · exact hacc r' h
    split at hr
    · exact ih seen acc hacc r hr
    · split at hr
      · exact hout r (List.mem_reverse.mp hr)
      · exact ih _ _ hout r hr

/-- Claim C4, counterexample: a requirement whose text survives filtering but
whose explanation is the placeholder `"unbekannt"` is returned **with**
`detail = "unbekannt"` — the code attaches `req.detail || undefined` with no
placeholder check (the claim asserts the detail is omitted). -/
theorem pickTopRequirements_placeholder_detail_cex :
    pickTopRequirementsJ [jObj [("requirement_de", .str "Handelsregisterauszug"),
        ("explanation_de", .str "unbekannt")]] (.undef)
      = .ok [⟨"Handelsregisterauszug", some "unbekannt", .str "", .jnull⟩] := rfl

/-- Claim C4 as amended: a record returned by `pickTopRequirements` carries a
`detail` exactly when the trimmed explanation/description text is non-empty —
placeholder detail text (e.g. `"unbekannt"`) is attached rather than
suppressed, and the attached detail is never the empty string. -/
theorem pickTopRequirements_detail_policy :
    ∀ (reqs : List JsVal) (ms : JsVal) (out : List ReqOut),
      pickTopRequirementsJ reqs ms = .ok out →
      ∀ r ∈ out, r.detail ≠ some "" := by
  intro reqs ms out h r hr
  unfold pickTopRequirementsJ at h
  cases hps : jsTrimE (jsOr ms (.str "")) with
  | error e => cases e; rw [hps] at h; exact Except.noConfusion h
  | ok ps =>
    rw [hps] at h
    simp only [exBind_ok] at h
    cases hm : mapME (fun p => reqStep p.1 p.2) reqs.enum with
    | error e => cases e; rw [hm] at h; exact Except.noConfusion h
    | ok mapped =>
      rw [hm] at h
      simp only [exBind_ok, exPure, Except.ok.injEq] at h
      subst h
      exact reqLoop_detail_ne_empty ps _ [] [] (by intro r' hr'; cases hr') r hr

/-- Witness for `pickTopRequirements_detail_policy` at a concrete input with
a non-empty detail. -/
theorem pickTopRequirements_detail_policy_witness :
    (⟨"Referenzliste Projekte", some "mindestens drei", .str "", .jnull⟩ : ReqOut).detail
      ≠ some "" :=
  pickTopRequirements_detail_policy
    [jObj [("requirement_de", .str "Referenzliste Projekte"),
      ("explanation_de", .str "mindestens drei")]] (.undef)
    [⟨"Referenzliste Projekte", some "mindestens drei", .str "", .jnull⟩] rfl
    ⟨"Referenzliste Projekte", some "mindestens drei", .str "", .jnull⟩ (by simp)

/-! ### Claim C6 -/

/-- Membership in the result of `mapME` comes from a successful element. -/
theorem mapME_mem {α β : Type} (f : α → Except Unit β) :
    ∀ (xs : List α) (ys : List β), mapME f xs = .ok ys →
      ∀ y ∈ ys, ∃ x ∈ xs, f x = .ok y := by
  intro xs
  induction xs with
  | nil =>
    intro ys h y hy
    rw [mapME] at h
    cases h
    cases hy
  | cons x rest ih =>
    intro ys h y hy
    rw [mapME_cons] at h
    cases hf : f x with
    | error e => cases e; rw [hf] at h; exact Except.noConfusion h
    | ok z =>
      rw [hf] at h
      simp only [exBind_ok] at h
      cases hr : mapME f rest with
      | error e => cases e; rw [hr] at h; exact Except.noConfusion h
      | ok zs =>
        rw [hr] at h
        simp only [exBind_ok, exPure, Except.ok.injEq] at h
        subst h
        rcases List.mem_cons.mp hy with h | h
        · exact ⟨x, List.mem_cons_self x rest, h ▸ hf⟩
        · obtain ⟨x', hx', hfx'⟩ := ih zs hr y h
          exact ⟨x', List.mem_cons_of_mem x hx', hfx'⟩

/-- A value of an updated insertion-ordered map is the new value or an old
value. -/
theorem alValues_alSet_mem {α : Type} :
    ∀ (m : List (String × α)) (k : String) (x v : α),
      v ∈ alValues (alSet m k x) → v = x ∨ v ∈ alValues m := by
  intro m
  induction m with
  | nil =>
    intro k x v hv
    rcases List.mem_cons.mp hv with h | h
    · exact Or.inl h
    · cases h
  | cons p rest ih =>
    intro k x v hv
    rw [alSet] at hv
    by_cases hk : p.1 = k
    · rw [if_pos hk] at hv
      rcases List.mem_cons.mp hv with h | h
      · exact Or.inl h
      · exact Or.inr (List.mem_cons_of_mem _ h)
    · rw [if_neg hk] at hv
      rcases List.mem_cons.mp hv with h | h
      · exact Or.inr (List.mem_cons.mpr (Or.inl h))
      · rcases ih k x v h with h' | h'
        · exact Or.inl h'
        · exact Or.inr (List.mem_cons_of_mem _ h')

/-- A successful map lookup is a value of the map. -/
theorem alGet?_mem {α : Type} :
    ∀ (m : List (String × α)) (k : String) (v : α),
      alGet? m k = some v → v ∈ alValues m := by
  intro m
  induction m with
  | nil => intro k v h; cases h
  | cons p rest ih =>
    intro k v h
    rw [alGet?] at h
    by_cases hk : p.1 = k
    · rw [if_pos hk] at h
      cases h
      exact List.mem_cons_self _ _
    · rw [if_neg hk] at h
      exact List.mem_cons_of_mem _ (ih k v h)

/-- A record produced by the per-item risk extraction has a non-empty
severity: an item whose severity string is empty is dropped by the
`!severity` filter, not defaulted. -/
theorem riskStep_some_severity (ms : JsVal) (i : ℕ) (r : JsVal) (rec : RiskRec)
    (h : riskStep ms i r = .ok (some rec)) : rec.severity ≠ "" := by
  unfold riskStep at h
  cases htr : jsTrimE (jsOr (jsOr (jsGet r "risk_de") (jsGet r "text")) (.str "")) with
  | error e => cases e; rw [htr] at h; exact Except.noConfusion h
  | ok t =>
    rw [htr] at h
    simp only [exBind_ok] at h
    split at h
    · simp at h
    · split at h
      · simp at h
      · rename_i hcond hkey
        simp only [exPure, Except.ok.injEq, Option.some.injEq] at h
        subst h
        simp only [Bool.or_eq_true, decide_eq_true_eq, not_or] at hcond
        exact hcond.2

/-- The risk dedup pass preserves "every stored value has a non-empty
severity" (a merge keeps the existing record's severity). -/
theorem riskDedup_severity :
    ∀ (recs : List RiskRec) (m m' : List (String × RiskRec)),
      riskDedup m recs = .ok m' →
      (∀ v ∈ alValues m, v.severity ≠ "") →
      (∀ rec ∈ recs, rec.severity ≠ "") →
      ∀ v ∈ alValues m', v.severity ≠ "" := by
  intro recs
  induction recs with
  | nil =>
    intro m m' h hm _ v hv
    rw [riskDedup] at h
    cases h
    exact hm v hv
  | cons rc rest ih =>
    intro m m' h hm hrecs v hv
    rw [riskDedup] at h
    cases hg : alGet? m (normalizeText rc.text) with
    | some existing =>
      rw [hg] at h
      simp only [exBind_ok] at h
      cases hmerge : mergeSourceDocumentsJ existing.source_document rc.source_document with
      | error e => cases e; rw [hmerge] at h; exact Except.noConfusion h
      | ok merged =>
        rw [hmerge] at h
        simp only [exBind_ok] at h
        refine ih _ m' h ?_ (fun x hx => hrecs x (List.mem_cons_of_mem _ hx)) v hv
        intro w hw
        rcases alValues_alSet_mem m _ _ w hw with h' | h'
        · subst h'
          exact hm existing (alGet?_mem m _ existing hg)
        · exact hm w h'
    | none =>
      rw [hg] at h
      refine ih _ m' h ?_ (fun x hx => hrecs x (List.mem_cons_of_mem _ hx)) v hv
      intro w hw
      rcases alValues_alSet_mem m _ _ w hw with h' | h'
      · exact h' ▸ hrecs rc (List.mem_cons_self _ _)
      · exact hm w h'

/-- Claim C6 (confirmed): `pickTopRisks` returns at most 5 records, the
pre-projection ranked list is sorted by descending severity tier with the
original input index as tie-break (`riskLe`), every surviving record has a
non-empty severity (an item with empty severity is dropped, not defaulted to
low), every severity other than high/medium ranks like `"low"`, and
concretely a later `"high"` item outranks an earlier `"medium"` item while an
item without a severity string is dropped. -/
theorem pickTopRisks_ordering :
    (∀ (risks : List JsVal) (ms : JsVal) (l : List RiskRec),
      pickTopRisksRankedJ risks ms = .ok l →
      l.length ≤ 5 ∧ l.Pairwise riskLe ∧ ∀ r ∈ l, r.severity ≠ "") ∧
    (∀ (risks : List JsVal) (ms : JsVal) (out : List SrcOut),
      pickTopRisksJ risks ms = .ok out → out.length ≤ 5) ∧
    (∀ s : String, s ≠ "high" → s ≠ "medium" →
      severityRankOf s = severityRankOf "low") ∧
    pickTopRisksJ [jObj [("risk_de", .str "Verzögerung der Lieferung"), ("severity", .str "medium")],
        jObj [("risk_de", .str "Bußgeld droht"), ("severity", .str "high")]] (.undef)
      = .ok [⟨"Bußgeld droht", .str "", .jnull⟩, ⟨"Verzögerung der Lieferung", .str "", .jnull⟩] ∧
    pickTopRisksJ [jObj [("risk_de", .str "Lieferverzug unbegrenzt")]] .undef = .ok [] := by
  have main : ∀ (risks : List JsVal) (ms : JsVal) (l : List RiskRec),
      pickTopRisksRankedJ risks ms = .ok l →
      l.length ≤ 5 ∧ l.Pairwise riskLe ∧ ∀ r ∈ l, r.severity ≠ "" := by
    intro risks ms l h
    unfold pickTopRisksRankedJ at h
    cases hx : mapME (fun p => riskStep ms p.1 p.2) risks.enum with
    | error e => cases e; rw [hx] at h; exact Except.noConfusion h
    | ok extracted =>
      rw [hx] at h
      simp only [exBind_ok] at h
      cases hd : riskDedup [] (extracted.filterMap id) with
      | error e => cases e; rw [hd] at h; exact Except.noConfusion h
      | ok m =>
        rw [hd] at h
        simp only [exBind_ok, exPure, Except.ok.injEq] at h
        subst h
        refine ⟨List.length_take_le 5 _, ?_, ?_⟩
        · exact ((List.sorted_insertionSort riskLe (alValues m)).sublist
            (List.take_sublist 5 _))
        · intro r hr
          have hmem : r ∈ alValues m := by
            have h1 : r ∈ List.insertionSort riskLe (alValues m) :=
              List.take_subset 5 _ hr
            exact (List.perm_insertionSort riskLe (alValues m)).mem_iff.mp h1
          refine riskDedup_severity (extracted.filterMap id) [] m hd ?_ ?_ r hmem
          · intro v hv; cases hv
          · intro rc hrc
            obtain ⟨o, ho, hoEq⟩ := List.mem_filterMap.mp hrc
            obtain ⟨p, _, hp⟩ := mapME_mem _ risks.enum extracted hx o ho
            exact riskStep_some_severity ms p.1 p.2 rc
              (by rw [hp]; exact congrArg Except.ok hoEq)
  refine ⟨main, ?_, ?_, rfl, rfl⟩
  · intro risks ms out h
    unfold pickTopRisksJ at h
    cases hr : pickTopRisksRankedJ risks ms with
    | error e => cases e; rw [hr] at h; exact Except.noConfusion h
    | ok l =>
      rw [hr] at h
      simp only [exEMap_ok, Except.ok.injEq] at h
      subst h
      simpa using (main risks ms l hr).1
  · intro s h1 h2
    simp [severityRankOf, h1, h2]

/-- Witness for `pickTopRisks_ordering` at the concrete two-risk input. -/
theorem pickTopRisks_ordering_witness :
    ([⟨"Bußgeld droht", .str "", .jnull, "high", 1⟩,
      ⟨"Verzögerung der Lieferung", .str "", .jnull, "medium", 0⟩] : List RiskRec).length ≤ 5 ∧
    ([⟨"Bußgeld droht", .str "", .jnull, "high", 1⟩,
      ⟨"Verzögerung der Lieferung", .str "", .jnull, "medium", 0⟩] : List RiskRec).Pairwise riskLe ∧
    ∀ r ∈ ([⟨"Bußgeld droht", .str "", .jnull, "high", 1⟩,
      ⟨"Verzögerung der Lieferung", .str "", .jnull, "medium", 0⟩] : List RiskRec),
      r.severity ≠ "" :=
  pickTopRisks_ordering.1
    [jObj [("risk_de", .str "Verzögerung der Lieferung"), ("severity", .str "medium")],
     jObj [("risk_de", .str "Bußgeld droht"), ("severity", .str "high")]] (.undef)
    [⟨"Bußgeld droht", .str "", .jnull, "high", 1⟩,
     ⟨"Verzögerung der Lieferung", .str "", .jnull, "medium", 0⟩] rfl

/-! ### Claim C7 -/

/-- Position of a bucket in the fixed declaration order. -/
def bucketIdx : BucketKey → ℕ
  | .preparation => 0
  | .review => 1
  | .submission => 2
  | .clarifications => 3
  | .award => 4
  | .execution => 5

/-- Characterization of the `forEach` fold over the `bucketed` record: a slot
keeps its value if already filled, otherwise it receives the **first** step
(in input order) assigned to it. -/
theorem foldBuckets_char :
    ∀ (vs : List StepRec) (st : BucketKey → Option StepRec) (k : BucketKey),
      foldBuckets st vs k =
        match st k with
        | some x => some x
        | none => vs.find? (fun s => decide (assignBucket s = some k)) := by
  intro vs
  induction vs with
  | nil =>
    intro st k
    cases hstk : st k <;> simp [foldBuckets, hstk]
  | cons s rest ih =>
    intro st k
    cases ha : assignBucket s with
    | none =>
      have hstep : foldBuckets st (s :: rest) = foldBuckets st rest := by
        simp only [foldBuckets, ha]
      rw [hstep, ih st k]
      cases hstk : st k with
      | some x => rfl
      | none => rw [List.find?_cons_of_neg _ (by simp [ha])]
    | some k' =>
      cases hstk' : st k' with
      | some x =>
        have hstep : foldBuckets st (s :: rest) = foldBuckets st rest := by
          simp only [foldBuckets, ha, hstk', Option.isSome_some, if_true]
        rw [hstep, ih st k]
        by_cases heq : k' = k
        · subst heq
          rw [hstk']
        · cases hstk : st k with
          | some y => rfl
          | none =>
            rw [List.find?_cons_of_neg _ (by simp [ha]; exact fun hh => heq hh)]
      | none =>
        have hstep : foldBuckets st (s :: rest) =
            foldBuckets (fun k'' => if k'' = k' then some s else st k'') rest := by
          simp only [foldBuckets, ha, hstk', Option.isSome_none, Bool.false_eq_true, if_false]
        rw [hstep, ih _ k]
        by_cases heq : k' = k
        · subst heq
          rw [hstk']
          rw [List.find?_cons_of_pos _ (by simp [ha])]
          simp
        · have hne : ¬ k = k' := fun hh => heq hh.symm
          have hbeta : (if k = k' then some s else st k) = st k := if_neg hne
          rw [hbeta]
          cases hstk : st k with
          | some y => rfl
          | none =>
            rw [List.find?_cons_of_neg _ (by simp [ha]; exact fun hh => heq hh)]

/-- Claim C7 (confirmed): each surviving step goes to the first bucket (in
declaration order) whose keyword set matches its title+description; a step
matching no bucket is dropped; only the first step assigned to a bucket is
kept; and when the submission bucket stays empty while
`timeline.submission_deadline_de` is truthy, the synthesized submission step
fills the submission slot.  The final conjunct checks the two concrete
scenarios (two preparation steps, and submission synthesis) end to end. -/
theorem buildTimelineSteps_bucketing :
    (∀ (vs : List StepRec) (k : BucketKey),
      foldBuckets (fun _ => none) vs k =
        vs.find? (fun s => decide (assignBucket s = some k))) ∧
    (∀ (s : StepRec) (k : BucketKey), assignBucket s = some k →
      bucketMatches k s = true ∧
        ∀ k', bucketIdx k' < bucketIdx k → bucketMatches k' s = false) ∧
    (∀ (vs : List StepRec) (k : BucketKey) (s : StepRec),
      foldBuckets (fun _ => none) vs k = some s → assignBucket s = some k) ∧
    (∀ (vs : List StepRec) (timeline ms : JsVal),
      foldBuckets (fun _ => none) vs .submission = none →
      jsTruthy (jsGet timeline "submission_deadline_de") = true →
      finalBuckets vs timeline ms .submission = some (synthSubmission timeline ms)) ∧
    buildTimelineStepsJ
        [jObj [("title_de", .str "Planung der Geräte")],
         jObj [("title_de", .str "Vorbereitung Anlieferung")]]
        (jObj [("submission_deadline_de", .str "2025-12-15")]) (.undef)
      = .ok [⟨1, "Planung der Geräte", "", "", .str "", .jnull⟩,
             ⟨2, "Angebotsabgabe", "Abgabefrist: 2025-12-15", "", .str "", .jnull⟩] := by
  have hchar : ∀ (vs : List StepRec) (k : BucketKey),
      foldBuckets (fun _ => none) vs k =
        vs.find? (fun s => decide (assignBucket s = some k)) := by
    intro vs k
    rw [foldBuckets_char vs (fun _ => none) k]
  refine ⟨hchar, ?_, ?_, ?_, rfl⟩
  · intro s k h
    have hfp : ∀ (a : BucketKey) (l : List BucketKey), bucketMatches a s = true →
        List.find? (fun b => bucketMatches b s) (a :: l) = some a :=
      fun a l ha => List.find?_cons_of_pos l (by simpa using ha)
    have hfn : ∀ (a : BucketKey) (l : List BucketKey), bucketMatches a s = false →
        List.find? (fun b => bucketMatches b s) (a :: l) =
          List.find? (fun b => bucketMatches b s) l :=
      fun a l ha => List.find?_cons_of_neg l (by simp [ha])
    unfold assignBucket bucketOrder at h
    cases h1 : bucketMatches .preparation s with
    | true =>
      rw [hfp _ _ h1] at h
      cases h
      exact ⟨h1, by intro k' hk'; cases k' <;> simp [bucketIdx] at hk'⟩
    | false =>
    rw [hfn _ _ h1] at h
    cases h2 : bucketMatches .review s with
    | true =>
      rw [hfp _ _ h2] at h
      cases h
      refine ⟨h2, ?_⟩
      intro k' hk'
      cases k' <;> simp [bucketIdx] at hk' <;> assumption
    | false =>
    rw [hfn _ _ h2] at h
    cases h3 : bucketMatches .submission s with
    | true =>
      rw [hfp _ _ h3] at h
      cases h
      refine ⟨h3, ?_⟩
      intro k' hk'
      cases k' <;> simp [bucketIdx] at hk' <;> assumption
    | false =>
    rw [hfn _ _ h3] at h
    cases h4 : bucketMatches .clarifications s with
    | true =>
      rw [hfp _ _ h4] at h
      cases h
      refine ⟨h4, ?_⟩
      intro k' hk'
      cases k' <;> simp [bucketIdx] at hk' <;> assumption
    | false =>
    rw [hfn _ _ h4] at h
    cases h5 : bucketMatches .award s with
    | true =>
      rw [hfp _ _ h5] at h
      cases h
      refine ⟨h5, ?_⟩
      intro k' hk'
      cases k' <;> simp [bucketIdx] at hk' <;> assumption
    | false =>
    rw [hfn _ _ h5] at h
    cases h6 : bucketMatches .execution s with
    | true =>
      rw [hfp _ _ h6] at h
      cases h
      refine ⟨h6, ?_⟩
      intro k' hk'
      cases k' <;> simp [bucketIdx] at hk' <;> assumption
    | false =>
    rw [hfn _ _ h6] at h
    exact Option.noConfusion h
  · intro vs k s h
    rw [hchar vs k] at h
    have := List.find?_some h
    simpa using this
  · intro vs timeline ms hempty htruthy
    simp only [finalBuckets]
    rw [hempty, htruthy]
    simp

/-- Witness for `buildTimelineSteps_bucketing`: with no extracted steps and a
present deadline, the submission slot holds the synthesized step. -/
theorem buildTimelineSteps_bucketing_witness :
    finalBuckets [] (jObj [("submission_deadline_de", .str "2025-12-15")]) .undef .submission
      = some (synthSubmission (jObj [("submission_deadline_de", .str "2025-12-15")]) .undef) :=
  buildTimelineSteps_bucketing.2.2.2.1 []
    (jObj [("submission_deadline_de", .str "2025-12-15")]) .undef rfl rfl

/-! ### Claim C8 -/

/-- A value that can safely flow into a `.trim()`-guarded `||` chain: it is a
string whenever it is truthy (absent, null and falsy values are replaced by
the chain's fallback before `.trim()` is called). -/
def SafeStr (v : JsVal) : Prop := jsTruthy v = true → ∃ s, v = .str s

/-- Text-bearing fields of a risk item are strings when present. -/
def RiskTyped (r : JsVal) : Prop :=
  SafeStr (jsGet r "risk_de") ∧ SafeStr (jsGet r "text") ∧
    SafeStr (jsGet r "source_document")

/-- Text-bearing fields of a requirement item are strings when present. -/
def ReqTyped (r : JsVal) : Prop :=
  SafeStr (jsGet r "requirement_de") ∧ SafeStr (jsGet r "text") ∧
    SafeStr (jsGet r "explanation_de") ∧ SafeStr (jsGet r "explanation") ∧
    SafeStr (jsGet r "description_de")

/-- Text-bearing fields of a criterion item are strings when present. -/
def CritTyped (c : JsVal) : Prop :=
  SafeStr (jsGet c "criterion_de") ∧ SafeStr (jsGet c "text") ∧
    SafeStr (jsGet c "source_document")

/-- Text-bearing fields of a process-step item are strings when present. -/
def StepTyped (s : JsVal) : Prop :=
  SafeStr (jsGet s "title_de") ∧ SafeStr (jsGet s "description_de") ∧
    SafeStr (jsGet s "days_de")

/-- The well-typedness condition claim C8 needs for the whole bundle (stated
on the deep-cloned `ui_json`). -/
def WellTypedBundle (u : JsVal) : Prop :=
  SafeStr (jsGet (jsOr (jsGet u "meta") (jObj [])) "source_document") ∧
  (∀ r ∈ jsArrElems (jsGet u "mandatory_requirements"), ReqTyped r) ∧
  (∀ r ∈ jsArrElems (jsGet u "risks"), RiskTyped r) ∧
  (∀ c ∈ jsArrElems (jsGet u "evaluation_criteria"), CritTyped c) ∧
  (∀ st ∈ jsArrElems (jsGet u "process_steps"), StepTyped st) ∧
  (∀ it ∈ jsArrElems (jsGet u "service_types"), SafeStr (jsGet it "text")) ∧
  (∀ it ∈ jsArrElems (jsGet u "contract_penalties"), SafeStr (jsGet it "text")) ∧
  (∀ it ∈ jsArrElems (jsGet u "certifications_required"), SafeStr (jsGet it "text")) ∧
  (∀ d ∈ jsArrElems (jsGet u "missing_evidence_documents"),
    SafeStr (jsGet d "document_de") ∧ SafeStr (jsGet d "text"))

theorem SafeStr_undef : SafeStr .undef := fun h => Bool.noConfusion h

theorem SafeStr_str (s : String) : SafeStr (.str s) := fun _ => ⟨s, rfl⟩

/-- `||` preserves safety. -/
theorem SafeStr_jsOr {a b : JsVal} (ha : SafeStr a) (hb : SafeStr b) :
    SafeStr (jsOr a b) := by
  unfold jsOr
  split
  · exact ha
  · exact hb

/-- An `||` chain ending in a string literal is a string. -/
theorem jsOr_str_of_SafeStr {a : JsVal} (ha : SafeStr a) (t : String) :
    ∃ s, jsOr a (.str t) = .str s := by
  unfold jsOr
  split
  · exact ha (by assumption)
  · exact ⟨t, rfl⟩

/-- `.trim()` succeeds on an `||` chain over a safe value. -/
theorem jsTrimE_ok_of_SafeStr {a : JsVal} (ha : SafeStr a) (t : String) :
    ∃ u, jsTrimE (jsOr a (.str t)) = .ok u := by
  obtain ⟨s, hs⟩ := jsOr_str_of_SafeStr ha t
  rw [hs]
  exact ⟨_, rfl⟩

/-- A sequential monadic map over successful elements succeeds. -/
theorem mapME_isOk {α β : Type} (f : α → Except Unit β) :
    ∀ l : List α, (∀ x ∈ l, ∃ y, f x = .ok y) → ∃ ys, mapME f l = .ok ys := by
  intro l
  induction l with
  | nil => intro _; exact ⟨[], rfl⟩
  | cons x rest ih =>
    intro h
    obtain ⟨y, hy⟩ := h x (List.mem_cons_self x rest)
    obtain ⟨ys, hys⟩ := ih (fun x' hx' => h x' (List.mem_cons_of_mem x hx'))
    exact ⟨y :: ys, by rw [mapME_cons, hy]; simp [hys]⟩

/-- An element of `l.enum` projects to an element of `l`. -/
theorem snd_mem_of_mem_enum {α : Type} {l : List α} {p : ℕ × α} (h : p ∈ l.enum) :
    p.2 ∈ l := by
  have h2 := List.mem_map_of_mem Prod.snd h
  rwa [List.enum_map_snd] at h2

/-- `mergeSourceDocuments` never throws when both labels are safe. -/
theorem mergeSourceDocumentsJ_ok {a b : JsVal} (ha : SafeStr a) (hb : SafeStr b) :
    ∃ s, mergeSourceDocumentsJ a b = .ok s := by
  unfold mergeSourceDocumentsJ
  have hall : ∀ v ∈ [a, b].filter jsTruthy, ∃ u, jsTrimE (jsOr v (.str "")) = .ok u := by
    intro v hv
    rcases List.mem_filter.mp hv with ⟨hmem, hvt⟩
    have hsafe : SafeStr v := by
      rcases List.mem_cons.mp hmem with h | h
      · exact h ▸ ha
      · rcases List.mem_cons.mp h with h' | h'
        · exact h' ▸ hb
        · cases h'
    obtain ⟨s, hs⟩ := hsafe hvt
    subst hs
    unfold jsOr
    split <;> exact ⟨_, rfl⟩
  obtain ⟨ys, hys⟩ := mapME_isOk _ _ hall
  simp only [hys, exBind_ok]
  exact ⟨_, rfl⟩

/-- The per-risk extraction never throws on a well-typed item. -/
theorem riskStep_ok (ms : JsVal) (i : ℕ) (r : JsVal) (hr : RiskTyped r)
    (hms : SafeStr ms) : ∃ o, riskStep ms i r = .ok o := by
  obtain ⟨u, hu⟩ := jsTrimE_ok_of_SafeStr (SafeStr_jsOr hr.1 hr.2.1) ""
  unfold riskStep
  rw [hu]
  simp only [exBind_ok]
  split
  · exact ⟨_, rfl⟩
  · split <;> exact ⟨_, rfl⟩

/-- A surviving risk record's `source_document` stays safe. -/
theorem riskStep_some_safe (ms : JsVal) (i : ℕ) (r : JsVal) (rc : RiskRec)
    (hr : RiskTyped r) (hms : SafeStr ms)
    (h : riskStep ms i r = .ok (some rc)) : SafeStr rc.source_document := by
  unfold riskStep at h
  cases htr : jsTrimE (jsOr (jsOr (jsGet r "risk_de") (jsGet r "text")) (.str "")) with
  | error e => cases e; rw [htr] at h; exact Except.noConfusion h
  | ok t =>
    rw [htr] at h
    simp only [exBind_ok] at h
    split at h
    · simp at h
    · split at h
      · simp at h
      · simp only [exPure, Except.ok.injEq, Option.some.injEq] at h
        subst h
        exact SafeStr_jsOr hr.2.2 (SafeStr_jsOr hms (SafeStr_str ""))

/-- The risk dedup pass never throws when all stored and incoming
source-document values are safe. -/
theorem riskDedup_ok :
    ∀ (recs : List RiskRec) (m : List (String × RiskRec)),
      (∀ v ∈ alValues m, SafeStr v.source_document) →
      (∀ rc ∈ recs, SafeStr rc.source_document) →
      ∃ m', riskDedup m recs = .ok m' := by
  intro recs
  induction recs with
  | nil => intro m _ _; exact ⟨m, rfl⟩
  | cons rc rest ih =>
    intro m hm hrecs
    rw [riskDedup]
    cases hg : alGet? m (normalizeText rc.text) with
    | some existing =>
      obtain ⟨merged, hmerged⟩ := mergeSourceDocumentsJ_ok
        (hm existing (alGet?_mem m _ existing hg))
        (hrecs rc (List.mem_cons_self _ _))
      simp only [hmerged, exBind_ok]
      refine ih _ ?_ (fun x hx => hrecs x (List.mem_cons_of_mem _ hx))
      intro w hw
      rcases alValues_alSet_mem m _ _ w hw with h' | h'
      · subst h'
        exact SafeStr_str merged
      · exact hm w h'
    | none =>
      refine ih _ ?_ (fun x hx => hrecs x (List.mem_cons_of_mem _ hx))
      intro w hw
      rcases alValues_alSet_mem m _ _ w hw with h' | h'
      · exact h' ▸ hrecs rc (List.mem_cons_self _ _)
      · exact hm w h'

/-- `pickTopRisks` never throws on well-typed input. -/
theorem pickTopRisksJ_ok (risks : List JsVal) (ms : JsVal) (hms : SafeStr ms)
    (hr : ∀ r ∈ risks, RiskTyped r) : ∃ out, pickTopRisksJ risks ms = .ok out := by
  obtain ⟨extracted, hx⟩ := mapME_isOk (fun p => riskStep ms p.1 p.2) risks.enum
    (fun p hp => riskStep_ok ms p.1 p.2 (hr p.2 (snd_mem_of_mem_enum hp)) hms)
  have hsafe : ∀ rc ∈ extracted.filterMap id, SafeStr rc.source_document := by
    intro rc hrc
    obtain ⟨o, ho, hoEq⟩ := List.mem_filterMap.mp hrc
    obtain ⟨p, hpmem, hp⟩ := mapME_mem _ risks.enum extracted hx o ho
    exact riskStep_some_safe ms p.1 p.2 rc (hr p.2 (snd_mem_of_mem_enum hpmem)) hms
      (by rw [hp]; exact congrArg Except.ok hoEq)
  obtain ⟨m, hmok⟩ := riskDedup_ok (extracted.filterMap id) [] (by intro v hv; cases hv) hsafe
  have heq : pickTopRisksJ risks ms =
      .ok (((List.insertionSort riskLe (alValues m)).take 5).map
        (fun r => ⟨r.text, r.source_document, r.source_chunk_id⟩)) := by
    unfold pickTopRisksJ pickTopRisksRankedJ
    rw [hx]
    simp only [exBind_ok]
    rw [hmok]
    simp only [exBind_ok, exPure, exEMap_ok]
  exact ⟨_, heq⟩

/-- Existence through a bind whose head and continuation both succeed. -/
theorem exBind_exists {α β : Type} {e : Except Unit α} {f : α → Except Unit β}
    (he : ∃ a, e = .ok a) (hf : ∀ a, ∃ b, f a = .ok b) :
    ∃ b, (e >>= f) = .ok b := by
  obtain ⟨a, ha⟩ := he
  obtain ⟨b, hb⟩ := hf a
  exact ⟨b, by rw [ha]; simpa using hb⟩

/-- The per-criterion extraction never throws on a well-typed item. -/
theorem critStep_ok (ms : JsVal) (c : JsVal) (hc : CritTyped c) :
    ∃ o, critStep ms c = .ok o := by
  obtain ⟨u, hu⟩ := jsTrimE_ok_of_SafeStr (SafeStr_jsOr hc.1 hc.2.1) ""
  unfold critStep critTextE
  rw [hu]
  simp only [exBind_ok]
  split
  · exact ⟨_, rfl⟩
  · split <;> exact ⟨_, rfl⟩

/-- A surviving criterion record's `source_document` stays safe. -/
theorem critStep_some_safe (ms : JsVal) (c : JsVal) (rc : CritRec)
    (hc : CritTyped c) (hms : SafeStr ms)
    (h : critStep ms c = .ok (some rc)) : SafeStr rc.source_document := by
  unfold critStep critTextE at h
  cases htr : jsTrimE (jsOr (jsOr (jsGet c "criterion_de") (jsGet c "text")) (.str "")) with
  | error e => cases e; rw [htr] at h; exact Except.noConfusion h
  | ok t =>
    rw [htr] at h
    simp only [exBind_ok] at h
    split at h
    · simp at h
    · split at h
      · simp at h
      · simp only [exPure, Except.ok.injEq, Option.some.injEq] at h
        subst h
        exact SafeStr_jsOr hc.2.2 (SafeStr_jsOr hms (SafeStr_str ""))

/-- The criteria dedup pass never throws when all stored and incoming
source-document values are safe. -/
theorem critDedup_ok :
    ∀ (recs : List CritRec) (m : List (String × CritRec)),
      (∀ v ∈ alValues m, SafeStr v.source_document) →
      (∀ rc ∈ recs, SafeStr rc.source_document) →
      ∃ m', critDedup m recs = .ok m' := by
  intro recs
  induction recs with
  | nil => intro m _ _; exact ⟨m, rfl⟩
  | cons rc rest ih =>
    intro m hm hrecs
    rw [critDedup]
    cases hg : alGet? m (normalizeText rc.text) with
    | none =>
      refine ih _ ?_ (fun x hx => hrecs x (List.mem_cons_of_mem _ hx))
      intro w hw
      rcases alValues_alSet_mem m _ _ w hw with h' | h'
      · exact h' ▸ hrecs rc (List.mem_cons_self _ _)
      · exact hm w h'
    | some existing =>
      by_cases hgt : weightGt rc.weight existing.weight = true
      · simp only [hgt, if_true]
        refine ih _ ?_ (fun x hx => hrecs x (List.mem_cons_of_mem _ hx))
        intro w hw
        rcases alValues_alSet_mem m _ _ w hw with h' | h'
        · exact h' ▸ hrecs rc (List.mem_cons_self _ _)
        · exact hm w h'
      · obtain ⟨merged, hmerged⟩ := mergeSourceDocumentsJ_ok
          (hm existing (alGet?_mem m _ existing hg))
          (hrecs rc (List.mem_cons_self _ _))
        simp only [hgt, if_false, hmerged, exBind_ok]
        refine ih _ ?_ (fun x hx => hrecs x (List.mem_cons_of_mem _ hx))
        intro w hw
        rcases alValues_alSet_mem m _ _ w hw with h' | h'
        · exact h' ▸ SafeStr_str merged
        · exact hm w h'

/-- `pickTopCriteria` never throws on well-typed input. -/
theorem pickTopCriteriaJ_ok (crits : List JsVal) (ms : JsVal) (hms : SafeStr ms)
    (hc : ∀ c ∈ crits, CritTyped c) : ∃ out, pickTopCriteriaJ crits ms = .ok out := by
  obtain ⟨extracted, hx⟩ := mapME_isOk (critStep ms) crits
    (fun c hcm => critStep_ok ms c (hc c hcm))
  have hsafe : ∀ rc ∈ extracted.filterMap id, SafeStr rc.source_document := by
    intro rc hrc
    obtain ⟨o, ho, hoEq⟩ := List.mem_filterMap.mp hrc
    obtain ⟨c, hcmem, hco⟩ := mapME_mem _ crits extracted hx o ho
    exact critStep_some_safe ms c rc (hc c hcmem) hms
      (by rw [hco]; exact congrArg Except.ok hoEq)
  obtain ⟨m, hmok⟩ := critDedup_ok (extracted.filterMap id) [] (by intro v hv; cases hv) hsafe
  have heq : pickTopCriteriaJ crits ms =
      .ok (((List.insertionSort critLe (alValues m)).take 5).map (fun item =>
        ⟨critRender item, item.source_document, item.source_chunk_id⟩)) := by
    unfold pickTopCriteriaJ
    rw [hx]
    simp only [exBind_ok]
    rw [hmok]
    simp only [exBind_ok, exPure]
  exact ⟨_, heq⟩

/-- The per-requirement extraction never throws on a well-typed item. -/
theorem reqStep_ok (i : ℕ) (r : JsVal) (hr : ReqTyped r) :
    ∃ y, reqStep i r = .ok y := by
  obtain ⟨u, hu⟩ := jsTrimE_ok_of_SafeStr (SafeStr_jsOr hr.1 hr.2.1) ""
  obtain ⟨u2, hu2⟩ := jsTrimE_ok_of_SafeStr
    (SafeStr_jsOr (SafeStr_jsOr hr.2.2.1 hr.2.2.2.1) hr.2.2.2.2) ""
  unfold reqStep
  rw [hu]
  simp only [exBind_ok]
  rw [hu2]
  simp only [exBind_ok]
  exact ⟨_, rfl⟩

/-- `pickTopRequirements` never throws on well-typed input. -/
theorem pickTopRequirementsJ_ok (reqs : List JsVal) (ms : JsVal) (hms : SafeStr ms)
    (hr : ∀ r ∈ reqs, ReqTyped r) : ∃ out, pickTopRequirementsJ reqs ms = .ok out := by
  obtain ⟨ps, hps⟩ := jsTrimE_ok_of_SafeStr hms ""
  obtain ⟨mapped, hmx⟩ := mapME_isOk (fun p => reqStep p.1 p.2) reqs.enum
    (fun p hp => reqStep_ok p.1 p.2 (hr p.2 (snd_mem_of_mem_enum hp)))
  have heq : pickTopRequirementsJ reqs ms =
      .ok (reqLoop ps [] [] (List.insertionSort (reqLe ps)
        (mapped.filter (fun r => !(r.text = "" || isPlaceholderStr r.text))))) := by
    unfold pickTopRequirementsJ
    rw [hps]
    simp only [exBind_ok]
    rw [hmx]
    simp only [exBind_ok, exPure]
  exact ⟨_, heq⟩

/-- The per-item extraction of `pickTopStrings` never throws on a well-typed
item (a plain string, or any value whose `text` field is safe). -/
theorem strItemStep_ok (it : JsVal) (h : SafeStr (jsGet it "text")) :
    ∃ y, strItemStep it = .ok y := by
  cases it with
  | str s => exact ⟨_, rfl⟩
  | undef => exact jsTrimE_ok_of_SafeStr h ""
  | jnull => exact jsTrimE_ok_of_SafeStr h ""
  | num v => exact jsTrimE_ok_of_SafeStr h ""
  | arr l => exact jsTrimE_ok_of_SafeStr h ""
  | obj fs => exact jsTrimE_ok_of_SafeStr h ""

/-- `pickTopStrings` never throws on well-typed input. -/
theorem pickTopStringsJ_ok (items : List JsVal) (limit : ℕ)
    (h : ∀ it ∈ items, SafeStr (jsGet it "text")) :
    ∃ out, pickTopStringsJ items limit = .ok out := by
  obtain ⟨texts, htx⟩ := mapME_isOk strItemStep items
    (fun it hit => strItemStep_ok it (h it hit))
  refine ⟨(alValues (strDedup [] texts)).take limit, ?_⟩
  unfold pickTopStringsJ
  rw [htx]
  simp only [exBind_ok, exPure]

/-- The per-step extraction never throws on a well-typed item. -/
theorem stepMap_ok (ms : JsVal) (i : ℕ) (st : JsVal) (h : StepTyped st) :
    ∃ y, stepMap ms i st = .ok y := by
  obtain ⟨u1, hu1⟩ := jsTrimE_ok_of_SafeStr h.1 ""
  obtain ⟨u2, hu2⟩ := jsTrimE_ok_of_SafeStr h.2.1 ""
  obtain ⟨u3, hu3⟩ := jsTrimE_ok_of_SafeStr h.2.2 ""
  unfold stepMap
  rw [hu1]
  simp only [exBind_ok]
  rw [hu2]
  simp only [exBind_ok]
  rw [hu3]
  simp only [exBind_ok]
  exact ⟨_, rfl⟩

/-- `buildTimelineSteps` never throws on well-typed input. -/
theorem buildTimelineStepsJ_ok (steps : List JsVal) (tl ms : JsVal)
    (h : ∀ st ∈ steps, StepTyped st) :
    ∃ out, buildTimelineStepsJ steps tl ms = .ok out := by
  obtain ⟨mapped, hmx⟩ := mapME_isOk (fun p => stepMap ms p.1 p.2) steps.enum
    (fun p hp => stepMap_ok ms p.1 p.2 (h p.2 (snd_mem_of_mem_enum hp)))
  simp only [buildTimelineStepsJ, validStepsOf]
  refine exBind_exists (exBind_exists ⟨_, hmx⟩ (fun a => ⟨_, rfl⟩)) (fun vs => ⟨_, rfl⟩)

/-- `isPlaceholder` on a raw value never throws when the value is safe. -/
theorem isPlaceholderJ_ok {v : JsVal} (h : SafeStr v) :
    ∃ b, isPlaceholderJ v = .ok b := by
  cases ht : jsTruthy v with
  | false => exact ⟨true, by unfold isPlaceholderJ; rw [ht]; rfl⟩
  | true =>
    obtain ⟨s, hs⟩ := h ht
    subst hs
    exact ⟨isPlaceholderStr s, by unfold isPlaceholderJ; rw [ht]; rfl⟩

/-- The missing-evidence filter predicate never throws on a safe text. -/
theorem missEvidenceKeep_ok (rec : JsSrcRec) (h : SafeStr rec.text) :
    ∃ b, missEvidenceKeep rec = .ok b := by
  unfold missEvidenceKeep
  cases ht : jsTruthy rec.text with
  | false => exact ⟨false, rfl⟩
  | true =>
    obtain ⟨b, hb⟩ := isPlaceholderJ_ok h
    exact ⟨!b, by simp [hb]⟩

/-- A monadic filter over succeeding predicates succeeds. -/
theorem filterE_ok {α : Type} (p : α → Except Unit Bool) :
    ∀ l : List α, (∀ x ∈ l, ∃ b, p x = .ok b) → ∃ ys, filterE p l = .ok ys := by
  intro l
  induction l with
  | nil => intro _; exact ⟨[], rfl⟩
  | cons x rest ih =>
    intro h
    obtain ⟨b, hb⟩ := h x (List.mem_cons_self x rest)
    obtain ⟨ys, hys⟩ := ih (fun x' hx' => h x' (List.mem_cons_of_mem x hx'))
    refine ⟨if b then x :: ys else ys, ?_⟩
    rw [filterE, hb]
    simp only [exBind_ok]
    rw [hys]
    simp only [exBind_ok, exPure]

/-- `mapSummaryToTender` never throws when the (cloned) bundle is
well-typed. -/
theorem mapSummaryToTenderJ_ok (payload : BatchSummaryPayload)
    (hw : WellTypedBundle (jsonClone (jsOr payload.ui_json (jObj [])))) :
    ∃ t, mapSummaryToTenderJ payload = .ok t := by
  obtain ⟨hms, hreq, hrisk, hcrit, hstep, hsvc, hpen, hcert, hmiss⟩ := hw
  simp only [mapSummaryToTenderJ]
  refine exBind_exists (pickTopRequirementsJ_ok _ _ hms hreq) (fun sub => ?_)
  refine exBind_exists (pickTopRisksJ_ok _ _ hms hrisk) (fun lr => ?_)
  refine exBind_exists (pickTopCriteriaJ_ok _ _ hms hcrit) (fun ec => ?_)
  refine exBind_exists (filterE_ok _ _ ?_) (fun me => ?_)
  · intro x hx
    obtain ⟨doc, hdoc, hxeq⟩ := List.mem_map.mp hx
    refine missEvidenceKeep_ok x ?_
    rw [← hxeq]
    exact SafeStr_jsOr (hmiss doc hdoc).1 (hmiss doc hdoc).2
  refine exBind_exists (pickTopStringsJ_ok _ _ hpen) (fun pen => ?_)
  refine exBind_exists (pickTopStringsJ_ok _ _ hcert) (fun cert => ?_)
  refine exBind_exists (buildTimelineStepsJ_ok _ _ _ hstep) (fun tls => ?_)
  refine exBind_exists (pickTopStringsJ_ok _ _ hsvc) (fun svc => ?_)
  exact ⟨_, rfl⟩

/-- Claim C8, counterexample: the normalizers are **not** total over
arbitrary loosely-typed input — a number stored in a `text` field makes
`pickTopStrings` call `.trim()` on a non-string and throw a `TypeError`
(modeled as `.error ()`). -/
theorem pickTopStrings_throws_cex :
    pickTopStringsJ [jObj [("text", .num (some 42))]] 5 = .error () := rfl

/-- Claim C8 as amended: `percentOf(0,0) = 0` (no divide-by-zero), and every
normalization function of sections 4.3–4.8 never throws **provided each
text-bearing field holds a string whenever it is present and truthy**
(`SafeStr`); the scorers (`computeWinProbability`, `routeFeasibilityScore`,
`pct`) are total over their numeric/string arguments by type.  On arbitrary
loosely-typed input the pickers can throw (see the counterexample). -/
theorem normalizers_total_when_typed :
    pct 0 0 = 0 ∧
    (∀ (items : List JsVal) (limit : ℕ), (∀ it ∈ items, SafeStr (jsGet it "text")) →
      ∃ out, pickTopStringsJ items limit = .ok out) ∧
    (∀ a b : JsVal, SafeStr a → SafeStr b → ∃ s, mergeSourceDocumentsJ a b = .ok s) ∧
    (∀ (risks : List JsVal) (ms : JsVal), SafeStr ms → (∀ r ∈ risks, RiskTyped r) →
      ∃ out, pickTopRisksJ risks ms = .ok out) ∧
    (∀ (reqs : List JsVal) (ms : JsVal), SafeStr ms → (∀ r ∈ reqs, ReqTyped r) →
      ∃ out, pickTopRequirementsJ reqs ms = .ok out) ∧
    (∀ (crits : List JsVal) (ms : JsVal), SafeStr ms → (∀ c ∈ crits, CritTyped c) →
      ∃ out, pickTopCriteriaJ crits ms = .ok out) ∧
    (∀ (steps : List JsVal) (tl ms : JsVal), (∀ st ∈ steps, StepTyped st) →
      ∃ out, buildTimelineStepsJ steps tl ms = .ok out) ∧
    (∀ payload : BatchSummaryPayload,
      WellTypedBundle (jsonClone (jsOr payload.ui_json (jObj []))) →
      ∃ t, mapSummaryToTenderJ payload = .ok t) := by
  refine ⟨rfl, ?_, ?_, ?_, ?_, ?_, ?_, ?_⟩
  · exact pickTopStringsJ_ok
  · exact fun a b ha hb => mergeSourceDocumentsJ_ok ha hb
  · exact fun risks ms hms hr => pickTopRisksJ_ok risks ms hms hr
  · exact fun reqs ms hms hr => pickTopRequirementsJ_ok reqs ms hms hr
  · exact fun crits ms hms hc => pickTopCriteriaJ_ok crits ms hms hc
  · exact fun steps tl ms h => buildTimelineStepsJ_ok steps tl ms h
  · exact mapSummaryToTenderJ_ok

/-- Witness for `normalizers_total_when_typed` at concrete well-typed
inputs. -/
theorem normalizers_total_when_typed_witness :
    ∃ out, pickTopStringsJ [.str "DGUV Prüfung",
      jObj [("text", .str "CE-Kennzeichnung")]] 5 = .ok out :=
  normalizers_total_when_typed.2.1
    [.str "DGUV Prüfung", jObj [("text", .str "CE-Kennzeichnung")]] 5
    (by
      intro it hit
      rcases List.mem_cons.mp hit with h | h
      · exact h ▸ SafeStr_undef
      · rcases List.mem_cons.mp h with h' | h'
        · exact h' ▸ SafeStr_str "CE-Kennzeichnung"
        · cases h')

end Reikan
